import Mathlib

/-!
Verification of the document change-detection and visual-diff engine of
timeline_plugin_documents (src/server/src/pdf.rs and src/server/src/files.rs),
shallowly embedded in Lean.

Modelling conventions:
* An RGB raster (image::RgbImage) is a width, a height and a pixel function.
* Rust f64 values produced by the segment encoder are modelled by the type F:
  an exact rational together with explicit NaN and infinity values, since the
  only f64 operations performed are `index as f64 / (num_rows - 1) as f64`
  (exact at the endpoints 0 and 1, NaN when 0/0), comparison, and
  multiplication/floor in the overlay painter.
* rayon parallel loops are modelled by their deterministic sequential result:
  the pixel-difference counter (an AtomicUsize incremented independently per
  differing pixel) is the count of differing positions, and
  `par_iter().min_by` keeps the first-seen element on ties (its reduction
  operator keeps the left argument unless the right is strictly smaller).
* Fallible pdfium calls are modelled with Option / Except; a panic
  (`unwrap` on a missing index) is modelled as `none`.
-/

/-- Model of one RGB pixel (the three channel values). -/
abbrev Pixel := Nat × Nat × Nat

/-- Model of image::RgbImage: an explicit pixel grid. `pixel x y` is
`get_pixel(x, y)` with `x` the column and `y` the row. -/
structure RgbImage where
  width : Nat
  height : Nat
  pixel : Nat → Nat → Pixel

/-- Number of positions `(x, y)` with `x < a.width`, `y < a.height` whose
pixels differ between `a` and `b` — the value accumulated in the AtomicUsize
counter of PDFComparison::compare_images. -/
def diffCount (a b : RgbImage) : Nat :=
  ((List.range a.width).map (fun x =>
    ((List.range a.height).filter (fun y => decide (a.pixel x y ≠ b.pixel x y))).length)).sum

/-- Model of the private enum Similiarity of pdf.rs (spelling kept). -/
inductive Similiarity where
  | Different
  | Similar (s : Nat)
deriving DecidableEq

/-- Similiarity::cmp: Different is greater than any Similar; two Similar
values compare by their pixel counts. -/
def Similiarity.cmp : Similiarity → Similiarity → Ordering
  | .Different, .Different => .eq
  | .Different, .Similar _ => .gt
  | .Similar _, .Different => .lt
  | .Similar s, .Similar o => compare s o

/-- PDFComparison::compare_images: dimension mismatch is Different, otherwise
Similar with the number of differing pixel positions. -/
def compare_images (a b : RgbImage) : Similiarity :=
  if (a.width, a.height) = (b.width, b.height) then .Similar (diffCount a b)
  else .Different

/-- Model of the public enum PageSimilarity of pdf.rs. -/
inductive PageSimilarity where
  | Different
  | Similar (index : Nat) (sim : Nat)
deriving DecidableEq

/-- The stream `img_b.par_iter().enumerate().map(|(i, v)| (i, compare_images(img_a, v)))`,
with `n` the index of the first element. -/
def indexedSims (a : RgbImage) : Nat → List RgbImage → List (Nat × Similiarity)
  | _, [] => []
  | n, b :: bs => (n, compare_images a b) :: indexedSims a (n + 1) bs

/-- Result of `min_by(|a, b| a.1.cmp(&b.1))`: the first element attaining the
minimum. rayon's reduction operator keeps the left argument unless comparing
it with the right gives Greater, which is associative, so any reduction shape
gives this value. -/
def minByFirst : List (Nat × Similiarity) → Option (Nat × Similiarity)
  | [] => none
  | x :: rest =>
    match minByFirst rest with
    | none => some x
    | some y =>
      match Similiarity.cmp x.2 y.2 with
      | .gt => some y
      | _ => some x

/-- PDFComparison::find_min_similarity. -/
def find_min_similarity (img_a : RgbImage) (img_b : List RgbImage) : PageSimilarity :=
  match minByFirst (indexedSims img_a 0 img_b) with
  | some (i, .Similar sim) => .Similar i sim
  | some (_, .Different) => .Different
  | none => .Different

/-- PDFComparison::find_min_similarity_for_images. -/
def find_min_similarity_for_images (img_a img_b : List RgbImage) : List PageSimilarity :=
  img_a.map (fun a => find_min_similarity a img_b)

/-- Model of the f64 values handled by the segment encoder: an exact rational,
NaN, or positive infinity. -/
inductive F where
  | val (q : ℚ)
  | nan
  | inf
deriving DecidableEq

/-- f64 division of two natural numbers: `0.0 / 0.0` is NaN, `k / 0.0` with
`k > 0` is infinity, otherwise the quotient is exact enough for every
property stated here (f64 rounding is monotone and exact at 0 and 1). -/
def fdiv (k d : Nat) : F :=
  if d = 0 then (if k = 0 then .nan else .inf) else .val ((k : ℚ) / (d : ℚ))

/-- The fractional position `index as f64 / (num_rows - 1) as f64` assigned to
row `k` of a raster with `numRows` rows (usize subtraction). -/
def fracPos (k numRows : Nat) : F :=
  fdiv k (numRows - 1)

/-- f64 comparison by `<=`: false whenever NaN is involved. -/
def F.le : F → F → Bool
  | .val a, .val b => decide (a ≤ b)
  | .val _, .inf => true
  | .inf, .inf => true
  | .inf, .val _ => false
  | .nan, _ => false
  | _, .nan => false

/-- Whether an f64 bound lies within `[0.0, 1.0]` (false for NaN). -/
def inRange01 (f : F) : Bool :=
  F.le (.val 0) f && F.le f (.val 1)

/-- Model of struct DifferenceSegementsBuilder of pdf.rs (spelling kept);
DifferenceSegments is its list of `(start, end)` pairs. -/
structure DifferenceSegementsBuilder where
  segments : List (F × F)
  current_segment : Option (F × F)

/-- DifferenceSegementsBuilder::build. -/
def DifferenceSegementsBuilder.build : DifferenceSegementsBuilder :=
  { segments := [], current_segment := none }

/-- DifferenceSegementsBuilder::step. -/
def DifferenceSegementsBuilder.step (b : DifferenceSegementsBuilder)
    (position : F) (hit : Bool) : DifferenceSegementsBuilder :=
  match b.current_segment with
  | some v =>
    if hit then { b with current_segment := some (v.1, position) }
    else { segments := b.segments ++ [v], current_segment := none }
  | none =>
    if hit then { b with current_segment := some (position, position) }
    else b

/-- DifferenceSegementsBuilder::finish. -/
def DifferenceSegementsBuilder.finish (b : DifferenceSegementsBuilder) : List (F × F) :=
  match b.current_segment with
  | some v => b.segments ++ [v]
  | none => b.segments

/-- Model of enum Comparison of pdf.rs; the Different payload is the
DifferenceSegments list. -/
inductive Comparison where
  | Identical
  | Different (segments : List (F × F))
deriving DecidableEq

/-- Whether the zipped row `y` of the two rasters contains a differing pixel:
the inner `r_a.zip(r_b)` loop of Comparison::from_similarity (iterator zip
truncates at the shorter side). -/
def rowDiffersZip (a b : RgbImage) (y : Nat) : Bool :=
  (List.range (min a.width b.width)).any (fun x => decide (a.pixel x y ≠ b.pixel x y))

/-- The per-row hit signal scanned by Comparison::from_similarity:
`img_a.rows().zip(img_b.rows())` truncates at the shorter document. -/
def hitsZip (a b : RgbImage) : List Bool :=
  (List.range (min a.height b.height)).map (rowDiffersZip a b)

/-- Comparison::from_similarity. `none` models the panic of
`img_b.get(*index).unwrap()` on an out-of-range index. -/
def from_similarity (sim : PageSimilarity) (img_a : RgbImage) (img_b : List RgbImage) :
    Option Comparison :=
  match sim with
  | .Different => some (.Different [(F.val 0, F.val 1)])
  | .Similar index s =>
    if s = 0 then some .Identical
    else
      match img_b.get? index with
      | none => none
      | some b =>
        let num_rows := img_a.height
        some (.Different
          (((hitsZip img_a b).enum.foldl
              (fun st kh => st.step (fracPos kh.1 num_rows) kh.2)
              DifferenceSegementsBuilder.build).finish))

/-- Specification-side maximal-run scanner (from the words of the spec:
a single left-to-right scan keeping at most one open segment, flushing a
still-open segment at the end). `runsAux k cur l` scans `l` whose first
element has row index `k`, with `cur` the currently open run. -/
def runsAux : Nat → Option (Nat × Nat) → List Bool → List (Nat × Nat)
  | _, none, [] => []
  | _, some r, [] => [r]
  | k, none, b :: l => if b then runsAux (k + 1) (some (k, k)) l else runsAux (k + 1) none l
  | k, some r, b :: l =>
    if b then runsAux (k + 1) (some (r.1, k)) l else r :: runsAux (k + 1) none l

/-- Maximal contiguous runs of `true` in a row signal, as `(start, end)` row
index pairs. -/
def maximalRuns (l : List Bool) : List (Nat × Nat) :=
  runsAux 0 none l

/-- Specification-side row signal over the full dimensions of the current
raster: row `y` is a hit when some pixel in it differs from the baseline
raster. Coincides with `hitsZip` when the two rasters have equal dimensions. -/
def rowSignalSpec (a b : RgbImage) : List Bool :=
  (List.range a.height).map (fun y =>
    (List.range a.width).any (fun x => decide (a.pixel x y ≠ b.pixel x y)))

/-- Model of enum PDFComparisonError (pdfium error payloads are opaque and
dropped). -/
inductive PDFComparisonError where
  | UnableToLoadPDF
  | UnableToRenderPDF
  | PdfiumError
deriving DecidableEq

/-- Model of a loaded pdfium document on the comparison side: its pages,
each rendering either to a raster or to a render failure (`none`). -/
structure PdfDocument where
  pages : List (Option RgbImage)

/-- PDFComparison::extract_images: render every page, aborting at the first
failing page with UnableToRenderPDF. -/
def extract_images (pdf : PdfDocument) : Except PDFComparisonError (List RgbImage) :=
  pdf.pages.mapM (fun p =>
    match p with
    | some img => .ok img
    | none => .error PDFComparisonError.UnableToRenderPDF)

/-- PDFComparison::compare_pdfs. The two arguments are the load results of
the current (`a`) and baseline (`b`) documents, `none` meaning the load
failed. The outer `none` models a panic inside from_similarity (unreachable
from this entry point). -/
def compare_pdfs (a b : Option PdfDocument) :
    Option (Except PDFComparisonError (List Comparison)) :=
  match a, b with
  | none, _ => some (.error PDFComparisonError.UnableToLoadPDF)
  | some pa, none =>
    some (.ok ((List.range pa.pages.length).map
      (fun _ => Comparison.Different [(F.val 0, F.val 1)])))
  | some pa, some pb =>
    match extract_images pa, extract_images pb with
    | .error e, _ => some (.error e)
    | .ok _, .error e => some (.error e)
    | .ok images_a, .ok images_b =>
      ((find_min_similarity_for_images images_a images_b).enum.mapM
        (fun p => (images_a.get? p.1).bind (fun img => from_similarity p.2 img images_b))).map
        Except.ok

/-- Model of enum PDFEditorError. -/
inductive PDFEditorError where
  | UnableToLoadPDF
  | UnableToSavePDF
  | UnableToModifyPDF
  | PdfiumError
deriving DecidableEq

/-- Model of the overlay image object built by PDFEditor::mark_page_differences:
its buffer dimensions and, per segment, the painted row range
`(image_height * start).floor() as u32 .. (image_height * end).floor() as u32`
(each painted row gets a red band over columns `0 .. min(10, image_width)`). -/
structure PdfImageObject where
  width : Nat
  height : Nat
  rowRanges : List (Nat × Nat)
deriving DecidableEq

/-- Model of one page of the document being rewritten by PDFEditor: its point
dimensions and its list of image objects. -/
structure PdfPage where
  width : Nat
  height : Nat
  objects : List PdfImageObject
deriving DecidableEq

/-- f64 multiplication of a natural number by an F value (`NaN` absorbs;
`0 * inf` is NaN). -/
def fmulNat (n : Nat) (f : F) : F :=
  match f with
  | .val q => .val ((n : ℚ) * q)
  | .nan => .nan
  | .inf => if n = 0 then .nan else .inf

/-- Rust `f.floor() as u32`: NaN and negatives saturate to 0, infinity and
large values to u32::MAX. -/
def floorCast (f : F) : Nat :=
  match f with
  | .nan => 0
  | .inf => 2 ^ 32 - 1
  | .val q => if q < 0 then 0 else min q.floor.toNat (2 ^ 32 - 1)

/-- PDFEditor::mark_page_differences: paint a `(page_width * 5, page_height * 5)`
overlay from the segments and append it to the page's objects (the only
mutation of the page). -/
def mark_page_differences (page : PdfPage) (segments : List (F × F)) : PdfPage :=
  { page with
    objects := page.objects ++
      [{ width := page.width * 5
         height := page.height * 5
         rowRanges := segments.map (fun s =>
           (floorCast (fmulNat (page.height * 5) s.1),
            floorCast (fmulNat (page.height * 5) s.2))) }] }

/-- One iteration of the try_for_each loop of PDFEditor::mark_differences at
comparison `index` with the current page_shift. `pages_mut().get` on an
out-of-range index (including a negative `index + shift` wrapped by the
`as u16` cast) fails with a pdfium error; `delete()` succeeding is assumed. -/
def markOne (pdf : List PdfPage) (shift : Int) (index : Nat) (c : Comparison) :
    Except PDFEditorError (List PdfPage × Int) :=
  let pos : Int := (index : Int) + shift
  if pos < 0 then .error .PdfiumError
  else
    match c with
    | .Identical =>
      match pdf.get? pos.toNat with
      | some _ => .ok (pdf.eraseIdx pos.toNat, shift - 1)
      | none => .error .PdfiumError
    | .Different segs =>
      match pdf.get? pos.toNat with
      | some p => .ok (pdf.set pos.toNat (mark_page_differences p segs), shift)
      | none => .error .PdfiumError

/-- The enumerated try_for_each loop of PDFEditor::mark_differences, starting
at comparison index `idx` with the given page_shift. -/
def markAll (pdf : List PdfPage) (shift : Int) (idx : Nat) :
    List Comparison → Except PDFEditorError (List PdfPage × Int)
  | [] => .ok (pdf, shift)
  | c :: rest =>
    match markOne pdf shift idx c with
    | .ok (pdf', shift') => markAll pdf' shift' (idx + 1) rest
    | .error e => .error e

/-- PDFEditor::mark_differences on an already-loaded document (loading and
saving the file are modelled by taking and returning the page list). -/
def mark_differences (pages : List PdfPage) (differences : List Comparison) :
    Except PDFEditorError (List PdfPage) :=
  (markAll pages 0 0 differences).map (fun r => r.1)

/-- Whether a Comparison is Different (the predicate of the `find` in
FileManager::generate_comparisons). -/
def isDifferent : Comparison → Bool
  | .Different _ => true
  | .Identical => false

/-- Pages deleted/marked by a processed prefix: the page paired with an
Identical comparison is dropped, the page paired with Different gains its
overlay. -/
def markStep (pc : PdfPage × Comparison) : Option PdfPage :=
  match pc.2 with
  | .Identical => none
  | .Different s => some (mark_page_differences pc.1 s)

/-- Closed form of the document produced by mark_differences: the zipped
prefix filtered/marked, followed by the pages beyond the comparison list. -/
def markedPages (pages : List PdfPage) (comps : List Comparison) : List PdfPage :=
  ((pages.zip comps).filterMap markStep) ++ pages.drop comps.length

/-- Number of Identical entries in a comparison list. -/
def countIdentical (comps : List Comparison) : Nat :=
  comps.countP (fun c => match c with | .Identical => true | _ => false)

-- Decidable equality for Except values, used to evaluate concrete runs of
-- the orchestrator model.
deriving instance DecidableEq for Except

/-- Paths are modelled as plain strings on the orchestrator side. -/
abbrev FsPath := String

/-- Model of enum FileManagerError of files.rs; the Io payload is the error
text. -/
inductive FileManagerError where
  | Io (e : String)
  | PDFComparisonError (e : PDFComparisonError)
  | PDFEditorError (e : PDFEditorError)
deriving DecidableEq

/-- FileManager::generate_comparisons over the candidate association list.
`cmp` abstracts `self.pdf_comparison.compare_pdfs`. The filter_map drops a
candidate whose comparisons contain no Different entry; collecting into
`Result<Vec<_>, _>` stops at the first comparison error. -/
def generate_comparisons (cmp : FsPath → FsPath → Except PDFComparisonError (List Comparison)) :
    List (FsPath × FsPath) → Except FileManagerError (List (FsPath × List Comparison))
  | [] => .ok []
  | (current_path, last_path) :: rest =>
    match cmp current_path last_path with
    | .error e => .error (.PDFComparisonError e)
    | .ok res =>
      if res.any isDifferent then
        (generate_comparisons cmp rest).map (fun ts => (current_path, res) :: ts)
      else
        generate_comparisons cmp rest

/-- FileManager::generate_updated_pdfs. `annotate` abstracts
`self.pdf_editor.mark_differences` (path, comparisons, out path) and
`outPathOf` abstracts the `diff_path.join("<name>.diff.<unix_seconds>.pdf")`
output-path construction for a given current path. -/
def generate_updated_pdfs
    (annotate : FsPath → List Comparison → FsPath → Except PDFEditorError Unit)
    (outPathOf : FsPath → FsPath)
    (tasks : List (FsPath × List Comparison)) :
    List (FsPath × Except FileManagerError FsPath) :=
  tasks.map (fun t =>
    let outpath := outPathOf t.1
    match annotate t.1 t.2 outpath with
    | .error e => (t.1, .error (.PDFEditorError e))
    | .ok _ => (t.1, .ok outpath))

/-- FileManager::update_changed_pdfs. `copyFn` abstracts `tokio::fs::copy`.
Besides the per-file result map (as an association list) the model also
returns the log of copies performed, so that baseline promotion is
observable. `associations.get(path).unwrap()` is modelled with a default:
when called from update the key is always present. -/
def update_changed_pdfs (copyFn : FsPath → FsPath → Except String Unit)
    (associations : List (FsPath × FsPath)) :
    List (FsPath × Except FileManagerError FsPath) →
    List (FsPath × Except FileManagerError FsPath) × List (FsPath × FsPath)
  | [] => ([], [])
  | (path, .error e) :: rest =>
    let r := update_changed_pdfs copyFn associations rest
    ((path, .error e) :: r.1, r.2)
  | (path, .ok diff_path) :: rest =>
    let dst := (List.lookup path associations).getD ""
    let r := update_changed_pdfs copyFn associations rest
    match copyFn path dst with
    | .error e => ((path, .error (.Io e)) :: r.1, (path, dst) :: r.2)
    | .ok _ => ((path, .ok diff_path) :: r.1, (path, dst) :: r.2)

/-- FileManager::update, starting from the scanned candidate list (the result
of find_updated_files, already deduplicated into an association list). -/
def FileManager.update
    (cmp : FsPath → FsPath → Except PDFComparisonError (List Comparison))
    (annotate : FsPath → List Comparison → FsPath → Except PDFEditorError Unit)
    (outPathOf : FsPath → FsPath)
    (copyFn : FsPath → FsPath → Except String Unit)
    (updated_files : List (FsPath × FsPath)) :
    Except FileManagerError
      (List (FsPath × Except FileManagerError FsPath) × List (FsPath × FsPath)) :=
  match generate_comparisons cmp updated_files with
  | .error e => .error e
  | .ok comparsions =>
    .ok (update_changed_pdfs copyFn updated_files
      (generate_updated_pdfs annotate outPathOf comparsions))

/-- Model of a filesystem tree for the directory scan: a file carries its
modification timestamp, a directory its named entries. -/
inductive FsNode where
  | file (mtime : Nat)
  | dir (entries : List (String × FsNode))

/-- Path lookup in a filesystem tree (path as a list of segments). -/
def lookupPath : List String → FsNode → Option FsNode
  | [], n => some n
  | s :: rest, .dir es => (List.lookup s es).bind (lookupPath rest)
  | _ :: _, .file _ => none

/-- Metadata errors distinguished by find_updated_files: NotFound versus any
other I/O failure. -/
inductive MetaErr where
  | notFound
  | other
deriving DecidableEq

/-- Model of `tokio::fs::metadata` on the baseline tree: `fault` marks paths
whose metadata call fails with a non-NotFound I/O error, a missing path is
NotFound, otherwise the node is returned. -/
def metadataM (fault : List String → Bool) (root : FsNode) (p : List String) :
    Except MetaErr FsNode :=
  if fault p then .error .other
  else
    match lookupPath p root with
    | some n => .ok n
    | none => .error .notFound

/-- Boolean success test for an Except value. -/
def exceptIsOk : Except ε α → Bool
  | .ok _ => true
  | .error _ => false

/-- The while-let loop body of FileManager::find_updated_files over the
entries of one current directory located at `curPath`, with `lastPath` the
corresponding baseline directory path. The recursion into a current
subdirectory reads that subdirectory's entries, exactly as the source calls
find_updated_files(entry.path(), last_path_file_path). -/
def scanEntries (fault : List String → Bool) (lastRoot : FsNode) :
    List (String × FsNode) → List String → List String →
    Except FileManagerError (List (List String × List String))
  | [], _, _ => .ok []
  | (name, node) :: rest, curPath, lastPath =>
    let last_path_file_path := lastPath ++ [name]
    match node, metadataM fault lastRoot last_path_file_path with
    | .file m, .ok (.file lastM) =>
      if lastM < m then
        (scanEntries fault lastRoot rest curPath lastPath).map
          (fun r => (curPath ++ [name], last_path_file_path) :: r)
      else
        scanEntries fault lastRoot rest curPath lastPath
    | .file _, .error .notFound =>
      (scanEntries fault lastRoot rest curPath lastPath).map
        (fun r => (curPath ++ [name], last_path_file_path) :: r)
    | .file _, .error .other => .error (.Io "io error")
    | .file _, .ok (.dir _) =>
      (scanEntries fault lastRoot rest curPath lastPath).map
        (fun r => (curPath ++ [name], last_path_file_path) :: r)
    | .dir es, .error .notFound =>
      match scanEntries fault lastRoot es (curPath ++ [name]) last_path_file_path with
      | .error e => .error e
      | .ok sub =>
        (scanEntries fault lastRoot rest curPath lastPath).map (fun r => sub ++ r)
    | .dir _, .error .other => .error (.Io "io error")
    | .dir es, .ok _ =>
      match scanEntries fault lastRoot es (curPath ++ [name]) last_path_file_path with
      | .error e => .error e
      | .ok sub =>
        (scanEntries fault lastRoot rest curPath lastPath).map (fun r => sub ++ r)

/-- FileManager::find_updated_files: read the current directory and scan its
entries (read_dir on a non-directory is an I/O error). -/
def find_updated_files (fault : List String → Bool) (lastRoot : FsNode)
    (cur : FsNode) (curPath lastPath : List String) :
    Except FileManagerError (List (List String × List String)) :=
  match cur with
  | .dir es => scanEntries fault lastRoot es curPath lastPath
  | .file _ => .error (.Io "not a directory")

/-- Specification-side scan (from the words of the spec): emit a candidate
for a current file exactly when the baseline path is a strictly older file,
is absent, or is a directory; recurse into current directories (also when the
baseline directory is absent). -/
def scanSpec (lastRoot : FsNode) :
    List (String × FsNode) → List String → List String →
    List (List String × List String)
  | [], _, _ => []
  | (name, node) :: rest, curPath, lastPath =>
    let lastFile := lastPath ++ [name]
    match node with
    | .file m =>
      let emit : Bool :=
        match lookupPath lastFile lastRoot with
        | some (.file lastM) => decide (lastM < m)
        | some (.dir _) => true
        | none => true
      (if emit then [(curPath ++ [name], lastFile)] else []) ++
        scanSpec lastRoot rest curPath lastPath
    | .dir es =>
      scanSpec lastRoot es (curPath ++ [name]) lastFile ++
        scanSpec lastRoot rest curPath lastPath

/-- Ordering key of a Similiarity value: Different is the top element, a
Similar value is its differing-pixel count. Similiarity::cmp is exactly the
comparison of keys. -/
def simKey : Similiarity → WithTop ℕ
  | .Different => ⊤
  | .Similar s => (s : WithTop ℕ)

/-- Concrete current-page raster used in witnesses: 2 wide, 3 high, middle
row differing from the baseline. -/
def exA : RgbImage :=
  { width := 2, height := 3, pixel := fun x y => if y = 1 then (1, x, 0) else (0, 0, 0) }

/-- Concrete baseline raster used in witnesses: 2 wide, 3 high, all black. -/
def exB : RgbImage :=
  { width := 2, height := 3, pixel := fun _ _ => (0, 0, 0) }

/-- Concrete single-row raster (current side). -/
def exOneA : RgbImage :=
  { width := 1, height := 1, pixel := fun _ _ => (0, 0, 0) }

/-- Concrete single-row raster (baseline side), differing in its only pixel. -/
def exOneB : RgbImage :=
  { width := 1, height := 1, pixel := fun _ _ => (1, 0, 0) }

/-- Concrete difference segments used in editor witnesses. -/
def exSeg : List (F × F) := [(F.val 0, F.val 1)]

/-- Concrete page fixture. -/
def exPage (n : Nat) : PdfPage := { width := n + 1, height := n + 2, objects := [] }

/-- Concrete four-page document fixture. -/
def exPages : List PdfPage := [exPage 0, exPage 1, exPage 2, exPage 3]

/-- The comparison list of the spec scenario: Identical, Different,
Identical, Different. -/
def exComps : List Comparison :=
  [.Identical, .Different exSeg, .Identical, .Different exSeg]

/-- A comparison list with no Identical entry. -/
def exCompsD : List Comparison := [.Different exSeg, .Different exSeg]

/-- Comparison oracle reporting one all-Identical page for every candidate. -/
def exCmpIdent : FsPath → FsPath → Except PDFComparisonError (List Comparison) :=
  fun _ _ => .ok [.Identical]

/-- Comparison oracle failing on candidate "a" and reporting one Different
page elsewhere. -/
def exCmpErr : FsPath → FsPath → Except PDFComparisonError (List Comparison) :=
  fun c _ => if c = "a" then .error .UnableToLoadPDF
    else .ok [.Different [(F.val 0, F.val 1)]]

/-- Comparison oracle reporting one Different page for every candidate. -/
def exCmpDiff : FsPath → FsPath → Except PDFComparisonError (List Comparison) :=
  fun _ _ => .ok [.Different [(F.val 0, F.val 1)]]

/-- The comparison list produced by exCmpDiff. -/
def exCompsDiff : List Comparison := [.Different [(F.val 0, F.val 1)]]

/-- Annotator oracle that always succeeds. -/
def exAnnOk : FsPath → List Comparison → FsPath → Except PDFEditorError Unit :=
  fun _ _ _ => .ok ()

/-- Annotator oracle failing on candidate "a" only. -/
def exAnnFailA : FsPath → List Comparison → FsPath → Except PDFEditorError Unit :=
  fun p _ _ => if p = "a" then .error .UnableToSavePDF else .ok ()

/-- Output-path oracle. -/
def exOut : FsPath → FsPath := fun p => p ++ ".diff"

/-- Copy oracle that always succeeds. -/
def exCopyOk : FsPath → FsPath → Except String Unit := fun _ _ => .ok ()

/-- Candidate list with two candidates. -/
def exFiles3 : List (FsPath × FsPath) := [("a", "la"), ("b", "lb")]

/-- The cycle result of the claim-3 witness run: candidate "a" fails
annotation and is recorded as such, candidate "b" is annotated and its
baseline promoted. -/
def exRl3 : List (FsPath × Except FileManagerError FsPath) × List (FsPath × FsPath) :=
  ([("a", .error (.PDFEditorError .UnableToSavePDF)), ("b", .ok "b.diff")],
   [("b", "lb")])

/-- Concrete baseline tree for the scan witness. -/
def exLastTree : FsNode :=
  .dir [("x", .file 5), ("d", .dir [("y", .file 7)]), ("z", .dir [])]

/-- Concrete current-directory entries for the scan witness: a newer file, a
subdirectory with one stale and one new file, a file shadowed by a baseline
directory, and a brand new file. -/
def exCurEntries : List (String × FsNode) :=
  [("x", .file 9), ("d", .dir [("y", .file 3), ("w", .file 1)]),
   ("z", .file 2), ("n", .file 0)]

/-- Fault oracle failing the baseline metadata call at path l/x. -/
def exFault : List String → Bool := fun p => p == ["l", "x"]

lemma diffCount_symm (a b : RgbImage) (hw : a.width = b.width) (hh : a.height = b.height) :
    diffCount a b = diffCount b a := by
  unfold diffCount
  rw [← hw, ← hh]
  congr 1
  apply List.map_congr_left
  intro x _
  congr 1
  apply List.filter_congr
  intro y _
  rw [decide_eq_decide]
  exact ne_comm

/-- C9: compare_images is symmetric: the dimension test and the count of
differing pixel positions are both invariant under swapping the arguments. -/
theorem claim9_compare_images_symm (a b : RgbImage) :
    compare_images a b = compare_images b a := by
  unfold compare_images
  by_cases h : (a.width, a.height) = (b.width, b.height)
  · have hw : a.width = b.width := congrArg Prod.fst h
    have hh : a.height = b.height := congrArg Prod.snd h
    rw [if_pos h, if_pos h.symm, diffCount_symm a b hw hh]
  · rw [if_neg h, if_neg (fun hc => h hc.symm)]

/-- C7: in compare_pdfs, a baseline-side load failure yields Ok with one
whole-page Different comparison per page of the current document, while a
current-side load failure always yields the hard error UnableToLoadPDF. -/
theorem claim7_load_failure_handling :
    (∀ pa : PdfDocument, compare_pdfs (some pa) none =
      some (Except.ok ((List.range pa.pages.length).map
        (fun _ => Comparison.Different [(F.val 0, F.val 1)])))) ∧
    (∀ b : Option PdfDocument, compare_pdfs none b =
      some (Except.error PDFComparisonError.UnableToLoadPDF)) :=
  ⟨fun _ => rfl, fun _ => rfl⟩

lemma builder_fold (pos : Nat → F) (l : List Bool) :
    ∀ (k : Nat) (segs : List (F × F)) (cur : Option (Nat × Nat)),
    (((List.enumFrom k l).foldl
        (fun st kh => DifferenceSegementsBuilder.step st (pos kh.1) kh.2)
        { segments := segs,
          current_segment := cur.map (fun r => (pos r.1, pos r.2)) }).finish) =
      segs ++ (runsAux k cur l).map (fun r => (pos r.1, pos r.2)) := by
  induction l with
  | nil =>
    intro k segs cur
    cases cur <;> simp [runsAux, DifferenceSegementsBuilder.finish]
  | cons b l ih =>
    intro k segs cur
    cases cur with
    | none =>
      cases b with
      | false =>
        have h := ih (k + 1) segs none
        simpa [List.enumFrom, DifferenceSegementsBuilder.step, runsAux] using h
      | true =>
        have h := ih (k + 1) segs (some (k, k))
        simpa [List.enumFrom, DifferenceSegementsBuilder.step, runsAux] using h
    | some r =>
      cases b with
      | false =>
        have h := ih (k + 1) (segs ++ [(pos r.1, pos r.2)]) none
        simp [List.enumFrom, DifferenceSegementsBuilder.step, runsAux]
        simpa [DifferenceSegementsBuilder.step] using h
      | true =>
        have h := ih (k + 1) segs (some (r.1, k))
        simpa [List.enumFrom, DifferenceSegementsBuilder.step, runsAux] using h

lemma from_similarity_similar (a : RgbImage) (bs : List RgbImage) (i n : Nat) (b : RgbImage)
    (hget : bs.get? i = some b) (hn : n ≠ 0) :
    from_similarity (.Similar i n) a bs =
      some (.Different ((maximalRuns (hitsZip a b)).map
        (fun r => (fracPos r.1 a.height, fracPos r.2 a.height)))) := by
  simp only [from_similarity, hget, if_neg hn, maximalRuns]
  have h := builder_fold (fun k => fracPos k a.height) (hitsZip a b) 0 [] none
  simp only [Option.map_none, List.nil_append] at h
  exact congrArg (fun s => some (Comparison.Different s)) h

lemma hitsZip_eq_rowSignal (a b : RgbImage) (hw : a.width = b.width) (hh : a.height = b.height) :
    hitsZip a b = rowSignalSpec a b := by
  unfold hitsZip rowSignalSpec rowDiffersZip
  rw [← hw, ← hh, min_self, min_self]

/-- C4: from_similarity maps Different to a whole-page segment, a zero-count
Similar to Identical, and a positive-count Similar to the maximal contiguous
runs of differing rows, each row index mapped to the f64 fraction
row / (num_rows - 1), with a still-open run flushed at the end of the scan. -/
theorem claim4_segment_encoding (a : RgbImage) (bs : List RgbImage) :
    from_similarity PageSimilarity.Different a bs =
      some (Comparison.Different [(F.val 0, F.val 1)]) ∧
    (∀ i, from_similarity (PageSimilarity.Similar i 0) a bs = some Comparison.Identical) ∧
    (∀ i n b, bs.get? i = some b → a.width = b.width → a.height = b.height → n ≠ 0 →
      from_similarity (PageSimilarity.Similar i n) a bs =
        some (Comparison.Different ((maximalRuns (rowSignalSpec a b)).map
          (fun r => (fracPos r.1 a.height, fracPos r.2 a.height))))) := by
  refine ⟨rfl, fun i => rfl, fun i n b hget hw hh hn => ?_⟩
  rw [from_similarity_similar a bs i n b hget hn, hitsZip_eq_rowSignal a b hw hh]

/-- Witness for C4 at concrete rasters: the middle row of a 3-row raster
differs, giving the single segment from fraction 1/2 to 1/2. -/
theorem claim4_witness :
    ([exB].get? 0 = some exB ∧ exA.width = exB.width ∧ exA.height = exB.height ∧ 2 ≠ 0) ∧
    from_similarity (PageSimilarity.Similar 0 2) exA [exB] =
      some (Comparison.Different ((maximalRuns (rowSignalSpec exA exB)).map
        (fun r => (fracPos r.1 exA.height, fracPos r.2 exA.height)))) :=
  ⟨⟨rfl, rfl, rfl, by decide⟩,
   (claim4_segment_encoding exA [exB]).2.2 0 2 exB rfl rfl rfl (by decide)⟩

lemma simCmp_gt (x y : Similiarity) :
    Similiarity.cmp x y = .gt ↔ simKey y < simKey x := by
  cases x <;> cases y <;>
    simp [Similiarity.cmp, simKey, Nat.compare_eq_gt, WithTop.coe_lt_top, WithTop.coe_lt_coe]

lemma simCmp_ne_gt (x y : Similiarity) :
    Similiarity.cmp x y ≠ .gt ↔ simKey x ≤ simKey y := by
  rw [Ne, simCmp_gt, not_lt]

lemma minByFirst_cons_none (x : Nat × Similiarity) (l : List (Nat × Similiarity))
    (h : minByFirst l = none) : minByFirst (x :: l) = some x := by
  simp only [minByFirst, h]

lemma minByFirst_cons_gt (x y : Nat × Similiarity) (l : List (Nat × Similiarity))
    (h : minByFirst l = some y) (hgt : Similiarity.cmp x.2 y.2 = .gt) :
    minByFirst (x :: l) = some y := by
  simp only [minByFirst, h, hgt]

lemma minByFirst_cons_le (x y : Nat × Similiarity) (l : List (Nat × Similiarity))
    (h : minByFirst l = some y) (hgt : Similiarity.cmp x.2 y.2 ≠ .gt) :
    minByFirst (x :: l) = some x := by
  simp only [minByFirst, h]

lemma minByFirst_spec (a : RgbImage) (bs : List RgbImage) : ∀ n : Nat,
    (minByFirst (indexedSims a n bs) = none ↔ bs = []) ∧
    (∀ j sim, minByFirst (indexedSims a n bs) = some (j, sim) →
      ∃ k b, j = n + k ∧ bs.get? k = some b ∧ sim = compare_images a b ∧
        ∀ kk bk, bs.get? kk = some bk →
          simKey sim ≤ simKey (compare_images a bk) ∧
          (simKey (compare_images a bk) = simKey sim → k ≤ kk)) := by
  induction bs with
  | nil =>
    intro n
    refine ⟨by simp [indexedSims, minByFirst], ?_⟩
    intro j sim h
    simp [indexedSims, minByFirst] at h
  | cons b0 rest ih =>
    intro n
    constructor
    · simp only [indexedSims]
      constructor
      · intro h
        exfalso
        cases hr : minByFirst (indexedSims a (n + 1) rest) with
        | none =>
          rw [minByFirst_cons_none _ _ hr] at h
          exact Option.noConfusion h
        | some y =>
          by_cases hgt : Similiarity.cmp (compare_images a b0) y.2 = .gt
          · rw [minByFirst_cons_gt _ _ _ hr hgt] at h
            exact Option.noConfusion h
          · rw [minByFirst_cons_le _ _ _ hr hgt] at h
            exact Option.noConfusion h
      · intro h
        exact List.noConfusion h
    · intro j sim h
      simp only [indexedSims] at h
      cases hr : minByFirst (indexedSims a (n + 1) rest) with
      | none =>
        rw [minByFirst_cons_none _ _ hr] at h
        have hrest : rest = [] := ((ih (n + 1)).1).mp hr
        subst hrest
        injection Option.some.inj h with hj hsim
        refine ⟨0, b0, by omega, rfl, hsim.symm, ?_⟩
        intro kk bk hkk
        cases kk with
        | zero =>
          have hb : b0 = bk := by simpa using hkk
          subst hb
          exact ⟨le_of_eq (congrArg simKey hsim.symm), fun _ => le_refl 0⟩
        | succ kk' => simp at hkk
      | some y =>
        obtain ⟨jy, simy⟩ := y
        obtain ⟨k', b', hj', hget', hsim', hmin'⟩ := (ih (n + 1)).2 jy simy hr
        by_cases hgt : Similiarity.cmp (compare_images a b0) simy = .gt
        · rw [minByFirst_cons_gt _ _ _ hr hgt] at h
          injection Option.some.inj h with hj hsim
          subst hj
          subst hsim
          have hlt : simKey simy < simKey (compare_images a b0) := (simCmp_gt _ _).mp hgt
          refine ⟨k' + 1, b', by omega, by simpa using hget', hsim', ?_⟩
          intro kk bk hkk
          cases kk with
          | zero =>
            have hb : b0 = bk := by simpa using hkk
            subst hb
            exact ⟨le_of_lt hlt, fun he => absurd he.symm (ne_of_lt hlt)⟩
          | succ kk' =>
            have hk := hmin' kk' bk (by simpa using hkk)
            exact ⟨hk.1, fun he => Nat.succ_le_succ (hk.2 he)⟩
        · rw [minByFirst_cons_le _ _ _ hr hgt] at h
          injection Option.some.inj h with hj hsim
          subst hj
          subst hsim
          have hle : simKey (compare_images a b0) ≤ simKey simy := (simCmp_ne_gt _ _).mp hgt
          refine ⟨0, b0, by omega, rfl, rfl, ?_⟩
          intro kk bk hkk
          cases kk with
          | zero =>
            have hb : b0 = bk := by simpa using hkk
            subst hb
            exact ⟨le_refl _, fun _ => le_refl 0⟩
          | succ kk' =>
            have hk := hmin' kk' bk (by simpa using hkk)
            exact ⟨le_trans hle hk.1, fun _ => Nat.zero_le _⟩

lemma compare_images_eq_similar (a b : RgbImage) (m : Nat)
    (h : compare_images a b = .Similar m) :
    (a.width, a.height) = (b.width, b.height) ∧ m = diffCount a b := by
  unfold compare_images at h
  by_cases hd : (a.width, a.height) = (b.width, b.height)
  · rw [if_pos hd] at h
    exact ⟨hd, (Similiarity.Similar.inj h).symm⟩
  · rw [if_neg hd] at h
    exact absurd h (by simp)

/-- C1: find_min_similarity returns Similar(i, n) with n the minimal
differing-pixel count over the baseline pages of matching dimensions, ties
broken towards the lowest index (Similar always outranking Different), and
returns Different when no baseline page matches dimensions or the baseline
list is empty. -/
theorem claim1_page_matcher_min (a : RgbImage) (bs : List RgbImage) :
    ((∀ b ∈ bs, (a.width, a.height) ≠ (b.width, b.height)) →
      find_min_similarity a bs = PageSimilarity.Different) ∧
    (∀ i b, bs.get? i = some b → (a.width, a.height) = (b.width, b.height) →
      ∃ j m bj, find_min_similarity a bs = PageSimilarity.Similar j m ∧
        bs.get? j = some bj ∧ (a.width, a.height) = (bj.width, bj.height) ∧
        m = diffCount a bj ∧
        ∀ k bk, bs.get? k = some bk → (a.width, a.height) = (bk.width, bk.height) →
          m ≤ diffCount a bk ∧ (diffCount a bk = m → j ≤ k)) := by
  constructor
  · intro hall
    unfold find_min_similarity
    cases hmin : minByFirst (indexedSims a 0 bs) with
    | none => rfl
    | some p =>
      obtain ⟨j, sim⟩ := p
      obtain ⟨k, b, hj, hget, hsim, _⟩ := (minByFirst_spec a bs 0).2 j sim hmin
      have hb : b ∈ bs := List.get?_mem hget
      have hdiff : compare_images a b = .Different := by
        unfold compare_images
        rw [if_neg (hall b hb)]
      rw [hsim, hdiff]
  · intro i b hget hdims
    cases hmin : minByFirst (indexedSims a 0 bs) with
    | none =>
      exfalso
      have hemp : bs = [] := (minByFirst_spec a bs 0).1.mp hmin
      subst hemp
      simp at hget
    | some p =>
      obtain ⟨j, sim⟩ := p
      obtain ⟨k, bj, hj, hgetj, hsim, hminimal⟩ := (minByFirst_spec a bs 0).2 j sim hmin
      have hcompb : compare_images a b = .Similar (diffCount a b) := by
        unfold compare_images
        rw [if_pos hdims]
      have hkey := hminimal i b hget
      have hle : simKey sim ≤ (diffCount a b : WithTop ℕ) := by
        have := hkey.1
        rwa [hcompb] at this
      obtain ⟨m, hm⟩ : ∃ m, sim = .Similar m := by
        cases sim with
        | Different =>
          exfalso
          have : (⊤ : WithTop ℕ) ≤ (diffCount a b : WithTop ℕ) := hle
          exact absurd (top_le_iff.mp this) (by simp)
        | Similar m => exact ⟨m, rfl⟩
      subst hm
      obtain ⟨hdimsj, hmdiff⟩ := compare_images_eq_similar a bj m hsim.symm
      have hjk : j = k := by omega
      subst hjk
      refine ⟨j, m, bj, ?_, hgetj, hdimsj, hmdiff, ?_⟩
      · unfold find_min_similarity
        rw [hmin]
      · intro kk bk hgetk hdimsk
        have hck : compare_images a bk = .Similar (diffCount a bk) := by
          unfold compare_images
          rw [if_pos hdimsk]
        have h2 := hminimal kk bk hgetk
        rw [hck] at h2
        simp only [simKey] at h2
        refine ⟨WithTop.coe_le_coe.mp h2.1, fun he => h2.2 ?_⟩
        exact_mod_cast congrArg (fun z : ℕ => (z : WithTop ℕ)) he

/-- Witness for C1 at concrete rasters with a single matching baseline
page. -/
theorem claim1_witness :
    ([exB].get? 0 = some exB ∧ (exA.width, exA.height) = (exB.width, exB.height)) ∧
    (∃ j m bj, find_min_similarity exA [exB] = PageSimilarity.Similar j m ∧
      [exB].get? j = some bj ∧ (exA.width, exA.height) = (bj.width, bj.height) ∧
      m = diffCount exA bj ∧
      ∀ k bk, [exB].get? k = some bk → (exA.width, exA.height) = (bk.width, bk.height) →
        m ≤ diffCount exA bk ∧ (diffCount exA bk = m → j ≤ k)) :=
  ⟨⟨rfl, rfl⟩, (claim1_page_matcher_min exA [exB]).2 0 exB rfl rfl⟩

lemma mem_of_getLastQ {α : Type} : ∀ (l : List α) (a : α), l.getLast? = some a → a ∈ l := by
  intro l
  induction l with
  | nil => intro a h; simp at h
  | cons b t ih =>
    intro a h
    cases t with
    | nil =>
      have hb : a = b := by simpa using h.symm
      subst hb
      exact List.mem_cons_self _ _
    | cons b' t' =>
      rw [List.getLast?_cons_cons] at h
      exact List.mem_cons_of_mem _ (ih a h)

lemma runsAux_mem (l : List Bool) : ∀ (k : Nat) (cur : Option (Nat × Nat)),
    (∀ c, cur = some c → c.1 ≤ c.2 ∧ c.2 + 1 ≤ k) →
    ∀ r ∈ runsAux k cur l,
      r.1 ≤ r.2 ∧ r.2 + 1 ≤ k + l.length ∧
      (∀ c, cur = some c → c.1 ≤ r.1) ∧ (cur = none → k ≤ r.1) := by
  induction l with
  | nil =>
    intro k cur hinv r hr
    cases cur with
    | none => simp [runsAux] at hr
    | some c =>
      simp [runsAux] at hr
      subst hr
      obtain ⟨h1, h2⟩ := hinv _ rfl
      refine ⟨h1, by omega, fun c' hc' => ?_, fun hn => Option.noConfusion hn⟩
      have h3 := Option.some.inj hc'
      subst h3
      exact le_refl _
  | cons b l ih =>
    intro k cur hinv r hr
    cases cur with
    | none =>
      cases b with
      | true =>
        rw [show runsAux k none (true :: l) = runsAux (k + 1) (some (k, k)) l by
          simp [runsAux]] at hr
        have hm := ih (k + 1) (some (k, k)) (fun c hc => by cases hc; omega) r hr
        exact ⟨hm.1, by have := hm.2.1; simp at this ⊢; omega,
          fun c' hc' => Option.noConfusion hc', fun _ => hm.2.2.1 (k, k) rfl⟩
      | false =>
        rw [show runsAux k none (false :: l) = runsAux (k + 1) none l by
          simp [runsAux]] at hr
        have hm := ih (k + 1) none (fun c hc => Option.noConfusion hc) r hr
        exact ⟨hm.1, by have := hm.2.1; simp at this ⊢; omega,
          fun c' hc' => Option.noConfusion hc', fun _ => by have := hm.2.2.2 rfl; omega⟩
    | some c =>
      obtain ⟨hc12, hc2k⟩ := hinv c rfl
      cases b with
      | true =>
        rw [show runsAux k (some c) (true :: l) = runsAux (k + 1) (some (c.1, k)) l by
          simp [runsAux]] at hr
        have hm := ih (k + 1) (some (c.1, k)) (fun c' hc' => by cases hc'; constructor <;> omega) r hr
        refine ⟨hm.1, by have := hm.2.1; simp at this ⊢; omega,
          fun c' hc' => ?_, fun hn => Option.noConfusion hn⟩
        have h3 := Option.some.inj hc'
        subst h3
        exact hm.2.2.1 (c.1, k) rfl
      | false =>
        rw [show runsAux k (some c) (false :: l) = c :: runsAux (k + 1) none l by
          simp [runsAux]] at hr
        cases hr with
        | head =>
          exact ⟨hc12, by omega, fun c' hc' => by cases hc'; exact le_refl _,
            fun hn => Option.noConfusion hn⟩
        | tail _ htail =>
          have hm := ih (k + 1) none (fun c' hc' => Option.noConfusion hc') r htail
          have hk1 : k + 1 ≤ r.1 := hm.2.2.2 rfl
          exact ⟨hm.1, by have := hm.2.1; simp at this ⊢; omega,
            fun c' hc' => by cases hc'; omega, fun hn => Option.noConfusion hn⟩

lemma runsAux_chain (l : List Bool) : ∀ (k : Nat) (cur : Option (Nat × Nat)),
    (∀ c, cur = some c → c.1 ≤ c.2 ∧ c.2 + 1 ≤ k) →
    List.Chain' (fun r r' => r.2 + 1 < r'.1) (runsAux k cur l) := by
  induction l with
  | nil =>
    intro k cur hinv
    cases cur <;> simp [runsAux]
  | cons b l ih =>
    intro k cur hinv
    cases cur with
    | none =>
      cases b with
      | true =>
        rw [show runsAux k none (true :: l) = runsAux (k + 1) (some (k, k)) l by
          simp [runsAux]]
        exact ih (k + 1) (some (k, k)) (fun c hc => by cases hc; omega)
      | false =>
        rw [show runsAux k none (false :: l) = runsAux (k + 1) none l by simp [runsAux]]
        exact ih (k + 1) none (fun c hc => Option.noConfusion hc)
    | some c =>
      obtain ⟨hc12, hc2k⟩ := hinv c rfl
      cases b with
      | true =>
        rw [show runsAux k (some c) (true :: l) = runsAux (k + 1) (some (c.1, k)) l by
          simp [runsAux]]
        exact ih (k + 1) (some (c.1, k)) (fun c' hc' => by cases hc'; constructor <;> omega)
      | false =>
        rw [show runsAux k (some c) (false :: l) = c :: runsAux (k + 1) none l by
          simp [runsAux]]
        rw [List.chain'_cons']
        constructor
        · intro y hy
          have hmem := List.mem_of_mem_head? hy
          have hm := runsAux_mem l (k + 1) none (fun c' hc' => Option.noConfusion hc') y hmem
          have := hm.2.2.2 rfl
          omega
        · exact ih (k + 1) none (fun c' hc' => Option.noConfusion hc')

lemma runsAux_ne_nil_some (l : List Bool) : ∀ (k : Nat) (c : Nat × Nat),
    runsAux k (some c) l ≠ [] := by
  induction l with
  | nil => intro k c; simp [runsAux]
  | cons b l ih =>
    intro k c
    cases b with
    | true =>
      rw [show runsAux k (some c) (true :: l) = runsAux (k + 1) (some (c.1, k)) l by
        simp [runsAux]]
      exact ih (k + 1) (c.1, k)
    | false =>
      rw [show runsAux k (some c) (false :: l) = c :: runsAux (k + 1) none l by
        simp [runsAux]]
      exact List.cons_ne_nil _ _

lemma runsAux_ne_nil_any (l : List Bool) : ∀ (k : Nat), l.any id = true →
    runsAux k none l ≠ [] := by
  induction l with
  | nil => intro k h; simp at h
  | cons b l ih =>
    intro k h
    cases b with
    | true =>
      rw [show runsAux k none (true :: l) = runsAux (k + 1) (some (k, k)) l by simp [runsAux]]
      exact runsAux_ne_nil_some l (k + 1) (k, k)
    | false =>
      rw [show runsAux k none (false :: l) = runsAux (k + 1) none l by simp [runsAux]]
      exact ih (k + 1) (by simpa using h)

lemma runsAux_getLast (l : List Bool) : ∀ (k : Nat) (cur : Option (Nat × Nat)),
    l.getLast? = some true →
    ∃ s, (runsAux k cur l).getLast? = some (s, k + l.length - 1) := by
  induction l with
  | nil => intro k cur h; simp at h
  | cons b l ih =>
    intro k cur h
    cases l with
    | nil =>
      have hb : b = true := by simpa using h
      subst hb
      cases cur with
      | none =>
        refine ⟨k, ?_⟩
        rw [show runsAux k none [true] = runsAux (k + 1) (some (k, k)) [] by simp [runsAux]]
        simp [runsAux]
      | some c =>
        refine ⟨c.1, ?_⟩
        rw [show runsAux k (some c) [true] = runsAux (k + 1) (some (c.1, k)) [] by
          simp [runsAux]]
        simp [runsAux]
    | cons b' l' =>
      have hlast : (b' :: l').getLast? = some true := by
        rwa [List.getLast?_cons_cons] at h
      have harith : (k + 1) + (b' :: l').length - 1 = k + (b :: b' :: l').length - 1 := by
        simp [List.length_cons]
        omega
      cases cur with
      | none =>
        cases b with
        | true =>
          obtain ⟨s, hs⟩ := ih (k + 1) (some (k, k)) hlast
          refine ⟨s, ?_⟩
          rw [show runsAux k none (true :: b' :: l') =
            runsAux (k + 1) (some (k, k)) (b' :: l') by simp [runsAux]]
          rw [hs, harith]
        | false =>
          obtain ⟨s, hs⟩ := ih (k + 1) none hlast
          refine ⟨s, ?_⟩
          rw [show runsAux k none (false :: b' :: l') =
            runsAux (k + 1) none (b' :: l') by simp [runsAux]]
          rw [hs, harith]
      | some c =>
        cases b with
        | true =>
          obtain ⟨s, hs⟩ := ih (k + 1) (some (c.1, k)) hlast
          refine ⟨s, ?_⟩
          rw [show runsAux k (some c) (true :: b' :: l') =
            runsAux (k + 1) (some (c.1, k)) (b' :: l') by simp [runsAux]]
          rw [hs, harith]
        | false =>
          obtain ⟨s, hs⟩ := ih (k + 1) none hlast
          refine ⟨s, ?_⟩
          rw [show runsAux k (some c) (false :: b' :: l') =
            c :: runsAux (k + 1) none (b' :: l') by simp [runsAux]]
          have hne : runsAux (k + 1) none (b' :: l') ≠ [] := by
            apply runsAux_ne_nil_any
            have hmem : true ∈ (b' :: l') := mem_of_getLastQ _ _ hlast
            exact List.any_eq_true.mpr ⟨true, hmem, rfl⟩
          obtain ⟨r0, rs', hrs⟩ := List.exists_cons_of_ne_nil hne
          rw [hrs, List.getLast?_cons_cons]
          rw [hrs] at hs
          rw [hs, harith]

lemma find_min_similarity_similar_inv (a : RgbImage) (bs : List RgbImage) (i n : Nat)
    (h : find_min_similarity a bs = .Similar i n) :
    ∃ b, bs.get? i = some b ∧ compare_images a b = .Similar n := by
  unfold find_min_similarity at h
  cases hmin : minByFirst (indexedSims a 0 bs) with
  | none =>
    rw [hmin] at h
    exact absurd h (by simp)
  | some p =>
    obtain ⟨j, sim⟩ := p
    rw [hmin] at h
    cases sim with
    | Different => exact absurd h (by simp)
    | Similar m =>
      have h2 : PageSimilarity.Similar j m = PageSimilarity.Similar i n := h
      injection h2 with hj hm
      obtain ⟨k, bj, hjk, hgetj, hsimj, _⟩ := (minByFirst_spec a bs 0).2 j (.Similar m) hmin
      refine ⟨bj, ?_, ?_⟩
      · rw [← hj, show j = k by omega]
        exact hgetj
      · rw [← hm]
        exact hsimj.symm

lemma rowSignal_any_of_diffCount (a b : RgbImage) (h : diffCount a b ≠ 0) :
    (rowSignalSpec a b).any id = true := by
  unfold diffCount at h
  obtain ⟨x, hx, hfil⟩ : ∃ x ∈ List.range a.width,
      ((List.range a.height).filter (fun y => decide (a.pixel x y ≠ b.pixel x y))).length ≠ 0 := by
    by_contra hc
    push_neg at hc
    apply h
    apply List.sum_eq_zero
    intro z hz
    obtain ⟨x, hx, hxz⟩ := List.mem_map.mp hz
    rw [← hxz]
    exact hc x hx
  obtain ⟨y, hy⟩ := List.exists_mem_of_ne_nil
    ((List.range a.height).filter (fun y => decide (a.pixel x y ≠ b.pixel x y)))
    (fun hnil => hfil (by rw [hnil]; rfl))
  have hy2 := List.mem_filter.mp hy
  apply List.any_eq_true.mpr
  refine ⟨(List.range a.width).any (fun x => decide (a.pixel x y ≠ b.pixel x y)), ?_, ?_⟩
  · unfold rowSignalSpec
    exact List.mem_map_of_mem _ hy2.1
  · exact List.any_eq_true.mpr ⟨x, hx, hy2.2⟩

lemma fracPos_val (k h : Nat) (hh : 2 ≤ h) :
    fracPos k h = F.val ((k : ℚ) / ((h - 1 : Nat) : ℚ)) := by
  unfold fracPos fdiv
  rw [if_neg (by omega)]

/-- C5 counterexample: on a pair of 1x1 rasters whose only pixel differs,
the pipeline produces a Different comparison whose single segment is
(NaN, NaN): its bounds are not within [0.0, 1.0] and start <= end fails,
refuting the claim for single-row rasters. -/
theorem claim5_counterexample :
    from_similarity (find_min_similarity exOneA [exOneB]) exOneA [exOneB] =
      some (Comparison.Different [(F.nan, F.nan)]) ∧
    inRange01 F.nan = false ∧ F.le F.nan F.nan = false := by decide

/-- C5 (amended): for a raster with at least two rows, every
DifferenceSegments value produced by the encoder pipeline is non-empty when
tagged Different, its bounds are rationals within [0, 1] with start <= end,
its segments are strictly ascending and non-overlapping, and when the last
row differs the final segment ends at 1.0. (For a single-row raster the sole
segment is (NaN, NaN), which fails the bound conditions.) -/
theorem claim5_segment_invariants (a : RgbImage) (bs : List RgbImage)
    (hrows : 2 ≤ a.height) :
    ∃ c, from_similarity (find_min_similarity a bs) a bs = some c ∧
      (∀ segs, c = Comparison.Different segs →
        segs ≠ [] ∧
        (∀ p ∈ segs, ∃ qs qe : ℚ, p.1 = F.val qs ∧ p.2 = F.val qe ∧
          0 ≤ qs ∧ qs ≤ qe ∧ qe ≤ 1) ∧
        List.Chain' (fun p p' => ∃ qe qs : ℚ, p.2 = F.val qe ∧ p'.1 = F.val qs ∧ qe < qs) segs) ∧
      (∀ i n b segs, find_min_similarity a bs = PageSimilarity.Similar i n →
        bs.get? i = some b → (rowSignalSpec a b).getLast? = some true →
        c = Comparison.Different segs →
        ∃ p, segs.getLast? = some p ∧ p.2 = F.val 1) := by
  have hd1 : 1 ≤ a.height - 1 := by omega
  have hdpos : (0 : ℚ) < ((a.height - 1 : Nat) : ℚ) := by exact_mod_cast hd1
  cases hfind : find_min_similarity a bs with
  | Different =>
    refine ⟨.Different [(F.val 0, F.val 1)], rfl, ?_, ?_⟩
    · intro segs hc
      injection hc with hsegs
      subst hsegs
      refine ⟨by simp, ?_, by simp⟩
      intro p hp
      have hp2 : p = (F.val 0, F.val 1) := by simpa using hp
      subst hp2
      exact ⟨0, 1, rfl, rfl, le_refl 0, by norm_num, le_refl 1⟩
    · intro i n b segs hfs
      exact absurd hfs (by simp)
  | Similar i n =>
    obtain ⟨b0, hget0, hcomp0⟩ := find_min_similarity_similar_inv a bs i n hfind
    obtain ⟨hdims0, hn0⟩ := compare_images_eq_similar a b0 n hcomp0
    by_cases hn : n = 0
    · subst hn
      refine ⟨.Identical, by simp [from_similarity], ?_, ?_⟩
      · intro segs hc
        exact absurd hc (by simp)
      · intro i' n' b' segs _ _ _ hc
        exact absurd hc (by simp)
    · have hw : a.width = b0.width := congrArg Prod.fst hdims0
      have hh : a.height = b0.height := congrArg Prod.snd hdims0
      have heq := from_similarity_similar a bs i n b0 hget0 hn
      rw [hitsZip_eq_rowSignal a b0 hw hh] at heq
      have hlen : (rowSignalSpec a b0).length = a.height := by
        simp [rowSignalSpec]
      have hinv0 : ∀ c : Nat × Nat, (none : Option (Nat × Nat)) = some c →
          c.1 ≤ c.2 ∧ c.2 + 1 ≤ 0 := fun c hc => Option.noConfusion hc
      refine ⟨_, heq, ?_, ?_⟩
      · intro segs hc
        injection hc with hsegs
        subst hsegs
        refine ⟨?_, ?_, ?_⟩
        · intro hnil
          have hrne : maximalRuns (rowSignalSpec a b0) ≠ [] := by
            apply runsAux_ne_nil_any
            apply rowSignal_any_of_diffCount
            rw [← hn0]
            exact hn
          exact hrne (List.map_eq_nil_iff.mp hnil)
        · intro p hp
          obtain ⟨r, hr, hpr⟩ := List.mem_map.mp hp
          have hm := runsAux_mem (rowSignalSpec a b0) 0 none hinv0 r hr
          have hr2 : r.2 ≤ a.height - 1 := by
            have := hm.2.1
            omega
          have hr12 : r.1 ≤ r.2 := hm.1
          refine ⟨(r.1 : ℚ) / ((a.height - 1 : Nat) : ℚ),
            (r.2 : ℚ) / ((a.height - 1 : Nat) : ℚ), ?_, ?_, ?_, ?_, ?_⟩
          · rw [← hpr]
            simp only [fracPos_val _ _ hrows]
          · rw [← hpr]
            simp only [fracPos_val _ _ hrows]
          · positivity
          · apply div_le_div_of_nonneg_right ?_ hdpos.le
            exact_mod_cast hr12
          · rw [div_le_one hdpos]
            exact_mod_cast hr2
        · have hch := runsAux_chain (rowSignalSpec a b0) 0 none hinv0
          rw [List.chain'_map]
          apply List.Chain'.imp ?_ hch
          intro r r' hrel
          refine ⟨(r.2 : ℚ) / ((a.height - 1 : Nat) : ℚ),
            (r'.1 : ℚ) / ((a.height - 1 : Nat) : ℚ),
            by simp only [fracPos_val _ _ hrows], by simp only [fracPos_val _ _ hrows], ?_⟩
          apply div_lt_div_of_pos_right ?_ hdpos
          exact_mod_cast (by omega : r.2 < r'.1)
      · intro i' n' b' segs hfs hget' hlast hc
        injection hfs with hi hn2
        subst hi
        have hb' : b0 = b' := by
          rw [hget0] at hget'
          exact Option.some.inj hget'
        subst hb'
        injection hc with hsegs
        subst hsegs
        obtain ⟨s, hs⟩ := runsAux_getLast (rowSignalSpec a b0) 0 none hlast
        have hs' : (maximalRuns (rowSignalSpec a b0)).getLast? =
            some (s, 0 + (rowSignalSpec a b0).length - 1) := hs
        rw [List.getLast?_map, hs']
        refine ⟨(fracPos s a.height,
          fracPos (0 + (rowSignalSpec a b0).length - 1) a.height), by simp, ?_⟩
        simp only [hlen, Nat.zero_add]
        rw [fracPos_val _ _ hrows]
        rw [div_self (ne_of_gt hdpos)]

/-- Witness for C5 (amended) at a 3-row raster pair. -/
theorem claim5_witness :
    2 ≤ exA.height ∧
    (∃ c, from_similarity (find_min_similarity exA [exB]) exA [exB] = some c ∧
      (∀ segs, c = Comparison.Different segs →
        segs ≠ [] ∧
        (∀ p ∈ segs, ∃ qs qe : ℚ, p.1 = F.val qs ∧ p.2 = F.val qe ∧
          0 ≤ qs ∧ qs ≤ qe ∧ qe ≤ 1) ∧
        List.Chain' (fun p p' => ∃ qe qs : ℚ, p.2 = F.val qe ∧ p'.1 = F.val qs ∧ qe < qs) segs) ∧
      (∀ i n b segs, find_min_similarity exA [exB] = PageSimilarity.Similar i n →
        [exB].get? i = some b → (rowSignalSpec exA b).getLast? = some true →
        c = Comparison.Different segs →
        ∃ p, segs.getLast? = some p ∧ p.2 = F.val 1)) :=
  ⟨by decide, claim5_segment_invariants exA [exB] (by decide)⟩

lemma get?_append_len {α : Type} : ∀ (done : List α) (hd : α) (tl : List α),
    (done ++ hd :: tl).get? done.length = some hd := by
  intro done
  induction done with
  | nil => intro hd tl; rfl
  | cons d ds ih => intro hd tl; simpa using ih hd tl

lemma eraseIdx_append_len {α : Type} : ∀ (done : List α) (hd : α) (tl : List α),
    (done ++ hd :: tl).eraseIdx done.length = done ++ tl := by
  intro done
  induction done with
  | nil => intro hd tl; rfl
  | cons d ds ih => intro hd tl; simp [ih hd tl]

lemma set_append_len {α : Type} : ∀ (done : List α) (hd x : α) (tl : List α),
    (done ++ hd :: tl).set done.length x = done ++ x :: tl := by
  intro done
  induction done with
  | nil => intro hd x tl; rfl
  | cons d ds ih => intro hd x tl; simpa using ih hd x tl

lemma get?_append_self {α : Type} : ∀ (A B : List α), (A ++ B).get? A.length = B.get? 0 := by
  intro A
  induction A with
  | nil => intro B; rfl
  | cons a as ih => intro B; simpa using ih B

lemma markOne_at (done rest' : List PdfPage) (hd : PdfPage) (idx : Nat) (shift : Int)
    (hs : shift = (done.length : Int) - (idx : Int)) :
    markOne (done ++ hd :: rest') shift idx Comparison.Identical =
      .ok (done ++ rest', shift - 1) ∧
    (∀ segs, markOne (done ++ hd :: rest') shift idx (Comparison.Different segs) =
      .ok (done ++ mark_page_differences hd segs :: rest', shift)) := by
  have hpos : (idx : Int) + shift = (done.length : Int) := by omega
  have htn : ((idx : Int) + shift).toNat = done.length := by omega
  constructor
  · simp only [markOne]
    rw [if_neg (by omega), htn, get?_append_len, eraseIdx_append_len]
  · intro segs
    simp only [markOne]
    rw [if_neg (by omega), htn, get?_append_len]
    show Except.ok ((done ++ hd :: rest').set done.length (mark_page_differences hd segs), shift) =
      Except.ok (done ++ mark_page_differences hd segs :: rest', shift)
    rw [set_append_len]

lemma markedPages_cons_id (hd : PdfPage) (tl : List PdfPage) (cs : List Comparison) :
    markedPages (hd :: tl) (Comparison.Identical :: cs) = markedPages tl cs := by
  simp [markedPages, markStep]

lemma markedPages_cons_diff (hd : PdfPage) (tl : List PdfPage) (segs : List (F × F))
    (cs : List Comparison) :
    markedPages (hd :: tl) (Comparison.Different segs :: cs) =
      mark_page_differences hd segs :: markedPages tl cs := by
  simp [markedPages, markStep]

lemma countIdentical_cons_id (cs : List Comparison) :
    countIdentical (Comparison.Identical :: cs) = countIdentical cs + 1 := by
  simp [countIdentical, List.countP_cons]

lemma countIdentical_cons_diff (segs : List (F × F)) (cs : List Comparison) :
    countIdentical (Comparison.Different segs :: cs) = countIdentical cs := by
  simp [countIdentical, List.countP_cons]

lemma markAll_general : ∀ (comps : List Comparison) (done rest : List PdfPage)
    (idx : Nat) (shift : Int),
    shift = (done.length : Int) - (idx : Int) →
    comps.length ≤ rest.length →
    markAll (done ++ rest) shift idx comps =
      .ok (done ++ markedPages rest comps, shift - (countIdentical comps : Int)) := by
  intro comps
  induction comps with
  | nil =>
    intro done rest idx shift hs hl
    simp [markAll, markedPages, countIdentical]
  | cons c cs ih =>
    intro done rest idx shift hs hl
    cases rest with
    | nil => simp at hl
    | cons hd tl =>
      cases c with
      | Identical =>
        simp only [markAll]
        rw [(markOne_at done tl hd idx shift hs).1]
        show markAll (done ++ tl) (shift - 1) (idx + 1) cs = _
        rw [ih done tl (idx + 1) (shift - 1) (by push_cast; omega)
          (by simpa using Nat.le_of_succ_le_succ (by simpa using hl))]
        rw [markedPages_cons_id, countIdentical_cons_id]
        have harith : shift - 1 - (countIdentical cs : Int) =
            shift - ((countIdentical cs + 1 : Nat) : Int) := by push_cast; ring
        rw [harith]
      | Different segs =>
        simp only [markAll]
        rw [(markOne_at done tl hd idx shift hs).2 segs]
        rw [show done ++ mark_page_differences hd segs :: tl =
          (done ++ [mark_page_differences hd segs]) ++ tl by simp]
        show markAll ((done ++ [mark_page_differences hd segs]) ++ tl) shift (idx + 1) cs = _
        rw [ih (done ++ [mark_page_differences hd segs]) tl (idx + 1) shift
          (by simp; omega)
          (by simpa using Nat.le_of_succ_le_succ (by simpa using hl))]
        rw [markedPages_cons_diff, countIdentical_cons_diff]
        simp

lemma markedLen : ∀ (cs : List Comparison) (pages : List PdfPage), cs.length ≤ pages.length →
    ((pages.zip cs).filterMap markStep).length + countIdentical cs = cs.length := by
  intro cs
  induction cs with
  | nil => intro pages _; simp [countIdentical]
  | cons c cs ih =>
    intro pages hl
    cases pages with
    | nil => simp at hl
    | cons p ps =>
      have hrec := ih ps (by simpa using Nat.le_of_succ_le_succ (by simpa using hl))
      cases c with
      | Identical =>
        simp only [List.zip_cons_cons, List.filterMap_cons, markStep,
          countIdentical_cons_id, List.length_cons]
        omega
      | Different segs =>
        simp only [List.zip_cons_cons, List.filterMap_cons, markStep,
          countIdentical_cons_diff, List.length_cons]
        omega

lemma drop_get_zero {α : Type} : ∀ (l : List α) (k : Nat), k < l.length →
    (l.drop k).get? 0 = l.get? k := by
  intro l
  induction l with
  | nil => intro k hk; simp at hk
  | cons a as ih =>
    intro k hk
    cases k with
    | zero => rfl
    | succ k' => simpa using ih k' (by simpa using hk)

/-- C6: mark_differences processes comparisons with a shift counter: an
Identical comparison deletes the page at original_index + shift and
decrements shift, a Different comparison overlays that page, and after k
steps the document equals the processed prefix followed by the untouched
suffix, with shift equal to minus the number of Identicals seen, so that
original_index + shift is exactly the current position of the page about to
be processed. -/
theorem claim6_page_index_bookkeeping (pages : List PdfPage) (comps : List Comparison)
    (k : Nat) (hlen : comps.length ≤ pages.length) (hk : k ≤ comps.length) :
    markAll pages 0 0 (comps.take k) =
      .ok (markedPages pages (comps.take k),
        0 - (countIdentical (comps.take k) : Int)) ∧
    ((pages.zip (comps.take k)).filterMap markStep).length +
      countIdentical (comps.take k) = k ∧
    (k < pages.length →
      (markedPages pages (comps.take k)).get?
        (((k : Int) - (countIdentical (comps.take k) : Int)).toNat) = pages.get? k) ∧
    mark_differences pages comps = .ok (markedPages pages comps) := by
  have htk : (comps.take k).length = k := by
    rw [List.length_take]
    omega
  have htlen : (comps.take k).length ≤ pages.length := by omega
  have hpart1 := markAll_general (comps.take k) [] pages 0 0 (by simp) (by omega)
  simp only [List.nil_append] at hpart1
  have hpart2 : ((pages.zip (comps.take k)).filterMap markStep).length +
      countIdentical (comps.take k) = k := by
    have hml := markedLen (comps.take k) pages htlen
    rw [htk] at hml
    exact hml
  refine ⟨hpart1, hpart2, ?_, ?_⟩
  · intro hkp
    have hcnt : countIdentical (comps.take k) ≤ k := by omega
    have htn : (((k : Int) - (countIdentical (comps.take k) : Int))).toNat =
        k - countIdentical (comps.take k) := by omega
    rw [htn]
    unfold markedPages
    rw [htk]
    rw [show k - countIdentical (comps.take k) =
      ((pages.zip (comps.take k)).filterMap markStep).length by omega]
    rw [get?_append_self]
    exact drop_get_zero pages k hkp
  · have := markAll_general comps [] pages 0 0 (by simp) (by omega)
    simp only [List.nil_append] at this
    unfold mark_differences
    rw [this]
    rfl

/-- Witness for C6: a four-page document with comparisons Identical,
Different, Identical, Different, instantiated at k = 3. -/
theorem claim6_witness :
    (exComps.length ≤ exPages.length ∧ 3 ≤ exComps.length) ∧
    (markAll exPages 0 0 (exComps.take 3) =
      .ok (markedPages exPages (exComps.take 3),
        0 - (countIdentical (exComps.take 3) : Int)) ∧
    ((exPages.zip (exComps.take 3)).filterMap markStep).length +
      countIdentical (exComps.take 3) = 3 ∧
    (3 < exPages.length →
      (markedPages exPages (exComps.take 3)).get?
        (((3 : Int) - (countIdentical (exComps.take 3) : Int)).toNat) = exPages.get? 3) ∧
    mark_differences exPages exComps = .ok (markedPages exPages exComps)) :=
  ⟨⟨by decide, by decide⟩,
   claim6_page_index_bookkeeping exPages exComps 3 (by decide) (by decide)⟩

lemma filterMap_eq_map_no_id : ∀ (cs : List Comparison) (pages : List PdfPage),
    (∀ c ∈ cs, c ≠ Comparison.Identical) →
    (pages.zip cs).filterMap markStep =
      (pages.zip cs).map (fun pc =>
        match pc.2 with
        | .Different s => mark_page_differences pc.1 s
        | .Identical => pc.1) := by
  intro cs
  induction cs with
  | nil => intro pages _; simp
  | cons c cs ih =>
    intro pages hno
    cases pages with
    | nil => simp
    | cons p ps =>
      cases c with
      | Identical => exact absurd rfl (hno .Identical (List.mem_cons_self _ _))
      | Different segs =>
        simp only [List.zip_cons_cons, List.filterMap_cons, List.map_cons, markStep]
        rw [ih ps (fun c hc => hno c (List.mem_cons_of_mem _ hc))]

/-- C10: with no Identical comparison, mark_differences deletes no page: the
output keeps every input page in order (pages addressed by a Different
comparison only gain one appended overlay image object, keeping their
dimensions), and pages beyond the comparison list are untouched. -/
theorem claim10_no_deletion_frame (pages : List PdfPage) (comps : List Comparison)
    (hlen : comps.length ≤ pages.length)
    (hno : ∀ c ∈ comps, c ≠ Comparison.Identical) :
    mark_differences pages comps = .ok (markedPages pages comps) ∧
    (markedPages pages comps).length = pages.length ∧
    markedPages pages comps =
      (pages.zip comps).map (fun pc =>
        match pc.2 with
        | .Different s => mark_page_differences pc.1 s
        | .Identical => pc.1) ++ pages.drop comps.length ∧
    (∀ p segs, (mark_page_differences p segs).width = p.width ∧
      (mark_page_differences p segs).height = p.height ∧
      (mark_page_differences p segs).objects = p.objects ++
        [{ width := p.width * 5
           height := p.height * 5
           rowRanges := segs.map (fun s =>
             (floorCast (fmulNat (p.height * 5) s.1),
              floorCast (fmulNat (p.height * 5) s.2))) }]) := by
  have hmap := filterMap_eq_map_no_id comps pages hno
  have hform : markedPages pages comps =
      (pages.zip comps).map (fun pc =>
        match pc.2 with
        | .Different s => mark_page_differences pc.1 s
        | .Identical => pc.1) ++ pages.drop comps.length := by
    unfold markedPages
    rw [hmap]
  refine ⟨?_, ?_, hform, ?_⟩
  · have := markAll_general comps [] pages 0 0 (by simp) (by omega)
    simp only [List.nil_append] at this
    unfold mark_differences
    rw [this]
    rfl
  · rw [hform]
    rw [List.length_append, List.length_map, List.length_zip, List.length_drop]
    omega
  · intro p segs
    exact ⟨rfl, rfl, rfl⟩

/-- Witness for C10: two Different comparisons on a four-page document. -/
theorem claim10_witness :
    (exCompsD.length ≤ exPages.length ∧ (∀ c ∈ exCompsD, c ≠ Comparison.Identical)) ∧
    (mark_differences exPages exCompsD = .ok (markedPages exPages exCompsD) ∧
    (markedPages exPages exCompsD).length = exPages.length ∧
    markedPages exPages exCompsD =
      (exPages.zip exCompsD).map (fun pc =>
        match pc.2 with
        | .Different s => mark_page_differences pc.1 s
        | .Identical => pc.1) ++ exPages.drop exCompsD.length ∧
    (∀ p segs, (mark_page_differences p segs).width = p.width ∧
      (mark_page_differences p segs).height = p.height ∧
      (mark_page_differences p segs).objects = p.objects ++
        [{ width := p.width * 5
           height := p.height * 5
           rowRanges := segs.map (fun s =>
             (floorCast (fmulNat (p.height * 5) s.1),
              floorCast (fmulNat (p.height * 5) s.2))) }])) :=
  ⟨⟨by decide, by decide⟩,
   claim10_no_deletion_frame exPages exCompsD (by decide) (by decide)⟩

lemma generate_comparisons_mem
    (cmp : FsPath → FsPath → Except PDFComparisonError (List Comparison)) :
    ∀ (files : List (FsPath × FsPath)) (ts : List (FsPath × List Comparison)),
    generate_comparisons cmp files = .ok ts →
    ∀ t ∈ ts, ∃ l, (t.1, l) ∈ files ∧ cmp t.1 l = .ok t.2 ∧ t.2.any isDifferent = true := by
  intro files
  induction files with
  | nil =>
    intro ts h t ht
    simp only [generate_comparisons] at h
    injection h with h2
    subst h2
    simp at ht
  | cons f rest ih =>
    intro ts h t ht
    obtain ⟨c, l⟩ := f
    cases hc : cmp c l with
    | error e =>
      simp only [generate_comparisons, hc] at h
      exact Except.noConfusion h
    | ok res =>
      by_cases hany : res.any isDifferent
      · simp only [generate_comparisons, hc, if_pos hany] at h
        cases hr : generate_comparisons cmp rest with
        | error e =>
          rw [hr] at h
          exact Except.noConfusion h
        | ok ts' =>
          rw [hr] at h
          injection h with h2
          subst h2
          cases ht with
          | head => exact ⟨l, List.mem_cons_self _ _, hc, hany⟩
          | tail _ htl =>
            obtain ⟨l', hmem, hcmp', hany'⟩ := ih ts' hr t htl
            exact ⟨l', List.mem_cons_of_mem _ hmem, hcmp', hany'⟩
      · simp only [generate_comparisons, hc, if_neg hany] at h
        obtain ⟨l', hmem, hcmp', hany'⟩ := ih ts h t ht
        exact ⟨l', List.mem_cons_of_mem _ hmem, hcmp', hany'⟩

lemma generate_comparisons_mem_fwd
    (cmp : FsPath → FsPath → Except PDFComparisonError (List Comparison)) :
    ∀ (files : List (FsPath × FsPath)) (ts : List (FsPath × List Comparison)),
    generate_comparisons cmp files = .ok ts →
    ∀ c l comps, (c, l) ∈ files → cmp c l = .ok comps → comps.any isDifferent = true →
    (c, comps) ∈ ts := by
  intro files
  induction files with
  | nil =>
    intro ts h c l comps hmem
    simp at hmem
  | cons f rest ih =>
    intro ts h c l comps hmem hcmp hany
    obtain ⟨c0, l0⟩ := f
    cases hc0 : cmp c0 l0 with
    | error e =>
      simp only [generate_comparisons, hc0] at h
      exact Except.noConfusion h
    | ok res =>
      by_cases hany0 : res.any isDifferent
      · simp only [generate_comparisons, hc0, if_pos hany0] at h
        cases hr : generate_comparisons cmp rest with
        | error e =>
          rw [hr] at h
          exact Except.noConfusion h
        | ok ts' =>
          rw [hr] at h
          injection h with h2
          subst h2
          cases List.mem_cons.mp hmem with
          | inl hhd =>
            injection hhd with hc1 hl1
            subst hc1
            subst hl1
            rw [hc0] at hcmp
            injection hcmp with hres
            subst hres
            exact List.mem_cons_self _ _
          | inr htl =>
            exact List.mem_cons_of_mem _ (ih ts' hr c l comps htl hcmp hany)
      · simp only [generate_comparisons, hc0, if_neg hany0] at h
        cases List.mem_cons.mp hmem with
        | inl hhd =>
          injection hhd with hc1 hl1
          subst hc1
          subst hl1
          rw [hc0] at hcmp
          injection hcmp with hres
          subst hres
          exact absurd hany hany0
        | inr htl =>
          exact ih ts h c l comps htl hcmp hany

lemma generate_comparisons_error
    (cmp : FsPath → FsPath → Except PDFComparisonError (List Comparison)) :
    ∀ (files : List (FsPath × FsPath)) (c l : FsPath) (e : PDFComparisonError),
    (c, l) ∈ files → cmp c l = .error e →
    ∃ e', generate_comparisons cmp files = .error e' := by
  intro files
  induction files with
  | nil =>
    intro c l e hmem
    simp at hmem
  | cons f rest ih =>
    intro c l e hmem hcmp
    obtain ⟨c0, l0⟩ := f
    cases hc0 : cmp c0 l0 with
    | error e0 =>
      exact ⟨.PDFComparisonError e0, by simp only [generate_comparisons, hc0]⟩
    | ok res =>
      cases List.mem_cons.mp hmem with
      | inl hhd =>
        injection hhd with hc1 hl1
        subst hc1
        subst hl1
        rw [hc0] at hcmp
        exact Except.noConfusion hcmp
      | inr htl =>
        obtain ⟨e', he'⟩ := ih c l e htl hcmp
        by_cases hany0 : res.any isDifferent
        · exact ⟨e', by simp only [generate_comparisons, hc0, if_pos hany0, he', Except.map]⟩
        · exact ⟨e', by simp only [generate_comparisons, hc0, if_neg hany0, he']⟩

lemma generate_updated_keys
    (annotate : FsPath → List Comparison → FsPath → Except PDFEditorError Unit)
    (outPathOf : FsPath → FsPath) (ts : List (FsPath × List Comparison)) :
    (generate_updated_pdfs annotate outPathOf ts).map Prod.fst = ts.map Prod.fst := by
  unfold generate_updated_pdfs
  rw [List.map_map]
  apply List.map_congr_left
  intro t _
  simp only [Function.comp_apply]
  cases hann : annotate t.1 t.2 (outPathOf t.1) <;> simp [hann]

lemma updated_mem_err
    (annotate : FsPath → List Comparison → FsPath → Except PDFEditorError Unit)
    (outPathOf : FsPath → FsPath) (ts : List (FsPath × List Comparison))
    (c : FsPath) (comps : List Comparison) (e : PDFEditorError)
    (hmem : (c, comps) ∈ ts) (hann : annotate c comps (outPathOf c) = .error e) :
    (c, Except.error (FileManagerError.PDFEditorError e)) ∈
      generate_updated_pdfs annotate outPathOf ts := by
  have h := List.mem_map_of_mem (fun t : FsPath × List Comparison =>
    match annotate t.1 t.2 (outPathOf t.1) with
    | .error e => (t.1, Except.error (FileManagerError.PDFEditorError e))
    | .ok _ => (t.1, Except.ok (outPathOf t.1))) hmem
  simp only [hann] at h
  exact h

lemma updated_mem_ok
    (annotate : FsPath → List Comparison → FsPath → Except PDFEditorError Unit)
    (outPathOf : FsPath → FsPath) (ts : List (FsPath × List Comparison))
    (c : FsPath) (comps : List Comparison)
    (hmem : (c, comps) ∈ ts) (hann : annotate c comps (outPathOf c) = .ok ()) :
    (c, Except.ok (outPathOf c)) ∈ generate_updated_pdfs annotate outPathOf ts := by
  have h := List.mem_map_of_mem (fun t : FsPath × List Comparison =>
    match annotate t.1 t.2 (outPathOf t.1) with
    | .error e => (t.1, Except.error (FileManagerError.PDFEditorError e))
    | .ok _ => (t.1, Except.ok (outPathOf t.1))) hmem
  simp only [hann] at h
  exact h

lemma ucp_res_keys (copyFn : FsPath → FsPath → Except String Unit)
    (assoc : List (FsPath × FsPath)) :
    ∀ upd : List (FsPath × Except FileManagerError FsPath),
    (update_changed_pdfs copyFn assoc upd).1.map Prod.fst = upd.map Prod.fst := by
  intro upd
  induction upd with
  | nil => rfl
  | cons x rest ih =>
    obtain ⟨path, r⟩ := x
    cases r with
    | error e => simp [update_changed_pdfs, ih]
    | ok dp =>
      simp only [update_changed_pdfs]
      cases copyFn path ((List.lookup path assoc).getD "") <;> simp [ih]

lemma ucp_log_keys (copyFn : FsPath → FsPath → Except String Unit)
    (assoc : List (FsPath × FsPath)) :
    ∀ (upd : List (FsPath × Except FileManagerError FsPath)) q,
    q ∈ (update_changed_pdfs copyFn assoc upd).2 → q.1 ∈ upd.map Prod.fst := by
  intro upd
  induction upd with
  | nil => intro q hq; simp [update_changed_pdfs] at hq
  | cons x rest ih =>
    intro q hq
    obtain ⟨path, r⟩ := x
    cases r with
    | error e =>
      simp only [update_changed_pdfs] at hq
      exact List.mem_cons_of_mem _ (ih q hq)
    | ok dp =>
      simp only [update_changed_pdfs] at hq
      cases hcp : copyFn path ((List.lookup path assoc).getD "") <;> rw [hcp] at hq
      · cases List.mem_cons.mp hq with
        | inl hh => rw [hh]; exact List.mem_cons_self _ _
        | inr ht => exact List.mem_cons_of_mem _ (ih q ht)
      · cases List.mem_cons.mp hq with
        | inl hh => rw [hh]; exact List.mem_cons_self _ _
        | inr ht => exact List.mem_cons_of_mem _ (ih q ht)

lemma ucp_mem_err (copyFn : FsPath → FsPath → Except String Unit)
    (assoc : List (FsPath × FsPath)) :
    ∀ (upd : List (FsPath × Except FileManagerError FsPath)) (c : FsPath)
    (e : FileManagerError),
    (c, Except.error e) ∈ upd →
    (c, Except.error e) ∈ (update_changed_pdfs copyFn assoc upd).1 := by
  intro upd
  induction upd with
  | nil => intro c e h; simp at h
  | cons x rest ih =>
    intro c e h
    obtain ⟨path, r⟩ := x
    cases List.mem_cons.mp h with
    | inl hh =>
      injection hh with h1 h2
      subst h1
      subst h2
      simp [update_changed_pdfs]
    | inr ht =>
      cases r with
      | error e0 =>
        simp only [update_changed_pdfs]
        exact List.mem_cons_of_mem _ (ih c e ht)
      | ok dp =>
        simp only [update_changed_pdfs]
        cases copyFn path ((List.lookup path assoc).getD "") <;>
          exact List.mem_cons_of_mem _ (ih c e ht)

lemma ucp_mem_ok (copyFn : FsPath → FsPath → Except String Unit)
    (assoc : List (FsPath × FsPath)) :
    ∀ (upd : List (FsPath × Except FileManagerError FsPath)) (c : FsPath) (dp : FsPath),
    (c, Except.ok dp) ∈ upd →
    copyFn c ((List.lookup c assoc).getD "") = .ok () →
    (c, Except.ok dp) ∈ (update_changed_pdfs copyFn assoc upd).1 ∧
    (c, (List.lookup c assoc).getD "") ∈ (update_changed_pdfs copyFn assoc upd).2 := by
  intro upd
  induction upd with
  | nil => intro c dp h; simp at h
  | cons x rest ih =>
    intro c dp h hcp
    obtain ⟨path, r⟩ := x
    cases List.mem_cons.mp h with
    | inl hh =>
      injection hh with h1 h2
      subst h1
      subst h2
      simp only [update_changed_pdfs]
      rw [hcp]
      exact ⟨List.mem_cons_self _ _, List.mem_cons_self _ _⟩
    | inr ht =>
      have hrec := ih c dp ht hcp
      cases r with
      | error e0 =>
        simp only [update_changed_pdfs]
        exact ⟨List.mem_cons_of_mem _ hrec.1, hrec.2⟩
      | ok dp0 =>
        simp only [update_changed_pdfs]
        cases copyFn path ((List.lookup path assoc).getD "") <;>
          exact ⟨List.mem_cons_of_mem _ hrec.1, List.mem_cons_of_mem _ hrec.2⟩

lemma lookup_of_mem_nodup : ∀ (files : List (FsPath × FsPath)) (c l : FsPath),
    (c, l) ∈ files → (files.map Prod.fst).Nodup → List.lookup c files = some l := by
  intro files
  induction files with
  | nil => intro c l h; simp at h
  | cons f rest ih =>
    intro c l h hnd
    obtain ⟨c0, l0⟩ := f
    have hnd1 : (c0 :: rest.map Prod.fst).Nodup := by simpa using hnd
    have hnd2 := List.nodup_cons.mp hnd1
    cases List.mem_cons.mp h with
    | inl hh =>
      injection hh with h1 h2
      subst h1
      subst h2
      simp [List.lookup]
    | inr ht =>
      have hne : c ≠ c0 := by
        intro hceq
        subst hceq
        exact hnd2.1 (List.mem_map_of_mem Prod.fst ht)
      simp only [List.lookup]
      rw [show (c == c0) = false from beq_eq_false_iff_ne.mpr hne]
      exact ih c l ht hnd2.2

/-- C2 counterexample: on a candidate whose single page comparison is
Identical, the cycle returns an empty result map and an empty copy log: no
diff output is emitted, but the baseline is also NOT promoted — no copy is
performed, refuting the claim's "still promotes the baseline". -/
theorem claim2_counterexample :
    FileManager.update exCmpIdent exAnnOk exOut exCopyOk [("cur", "base")] =
      .ok (([], []) :
        List (FsPath × Except FileManagerError FsPath) × List (FsPath × FsPath)) := by
  decide

/-- C2 (amended): a candidate whose comparisons are all Identical is
discarded by the cycle entirely: it gets no entry in the result map (zero
diff output) and no copy is performed for it, so the baseline is not
promoted. -/
theorem claim2_all_identical_discarded
    (cmp : FsPath → FsPath → Except PDFComparisonError (List Comparison))
    (annotate : FsPath → List Comparison → FsPath → Except PDFEditorError Unit)
    (outPathOf : FsPath → FsPath) (copyFn : FsPath → FsPath → Except String Unit)
    (files : List (FsPath × FsPath)) (c l : FsPath) (comps : List Comparison)
    (rl : List (FsPath × Except FileManagerError FsPath) × List (FsPath × FsPath))
    (hmem : (c, l) ∈ files) (hcmp : cmp c l = .ok comps)
    (hall : comps.any isDifferent = false)
    (huniq : ∀ p ∈ files, p.1 = c → p.2 = l)
    (hupd : FileManager.update cmp annotate outPathOf copyFn files = .ok rl) :
    c ∉ rl.1.map Prod.fst ∧ c ∉ rl.2.map Prod.fst := by
  unfold FileManager.update at hupd
  cases hgen : generate_comparisons cmp files with
  | error e =>
    rw [hgen] at hupd
    exact Except.noConfusion hupd
  | ok ts =>
    rw [hgen] at hupd
    injection hupd with hrl
    subst hrl
    have hkey : c ∉ ts.map Prod.fst := by
      intro hc
      obtain ⟨t, htmem, htfst⟩ := List.mem_map.mp hc
      obtain ⟨l', hmem', hcmp', hany'⟩ := generate_comparisons_mem cmp files ts hgen t htmem
      rw [htfst] at hmem' hcmp'
      have hl' : l' = l := huniq (c, l') hmem' rfl
      rw [hl', hcmp] at hcmp'
      injection hcmp' with hres
      rw [← hres] at hany'
      rw [hall] at hany'
      exact Bool.noConfusion hany'
    constructor
    · rw [ucp_res_keys, generate_updated_keys]
      exact hkey
    · intro hc
      obtain ⟨q, hqmem, hqfst⟩ := List.mem_map.mp hc
      have hq := ucp_log_keys copyFn files _ q hqmem
      rw [generate_updated_keys] at hq
      rw [hqfst] at hq
      exact hkey hq

/-- Witness for C2 (amended): the single all-Identical candidate is absent
from both the result map and the copy log. -/
theorem claim2_witness :
    ((("cur", "base") ∈ [(("cur" : FsPath), ("base" : FsPath))]) ∧
      exCmpIdent "cur" "base" = .ok [Comparison.Identical] ∧
      ([Comparison.Identical].any isDifferent = false)) ∧
    ("cur" ∉ ((([], []) :
        List (FsPath × Except FileManagerError FsPath) ×
          List (FsPath × FsPath)).1.map Prod.fst) ∧
     "cur" ∉ ((([], []) :
        List (FsPath × Except FileManagerError FsPath) ×
          List (FsPath × FsPath)).2.map Prod.fst)) :=
  ⟨⟨by decide, by decide, by decide⟩,
   claim2_all_identical_discarded exCmpIdent exAnnOk exOut exCopyOk
     [("cur", "base")] "cur" "base" [Comparison.Identical] ([], [])
     (by decide) (by decide) (by decide) (by decide) (by decide)⟩

/-- C3 counterexample: two candidates, the first failing its comparison: the
whole cycle aborts with an error even though the second candidate is fine,
refuting "the cycle never returns a whole-cycle error because of a single
candidate's comparison failure". -/
theorem claim3_counterexample :
    FileManager.update exCmpErr exAnnOk exOut exCopyOk exFiles3 =
      .error (.PDFComparisonError .UnableToLoadPDF) := by
  decide

/-- C3 (amended): an annotation failure is isolated — recorded only against
that candidate's file, while other candidates are still annotated and
promoted — but a comparison failure for any candidate aborts the whole cycle
with an error. -/
theorem claim3_failure_isolation
    (cmp : FsPath → FsPath → Except PDFComparisonError (List Comparison))
    (annotate : FsPath → List Comparison → FsPath → Except PDFEditorError Unit)
    (outPathOf : FsPath → FsPath) (copyFn : FsPath → FsPath → Except String Unit)
    (files : List (FsPath × FsPath)) :
    (∀ c l e, (c, l) ∈ files → cmp c l = .error e →
      ∃ e', FileManager.update cmp annotate outPathOf copyFn files = .error e') ∧
    (∀ rl, FileManager.update cmp annotate outPathOf copyFn files = .ok rl →
      (files.map Prod.fst).Nodup →
      ∀ c l comps, (c, l) ∈ files → cmp c l = .ok comps → comps.any isDifferent = true →
        (∀ e, annotate c comps (outPathOf c) = .error e →
          (c, Except.error (FileManagerError.PDFEditorError e)) ∈ rl.1) ∧
        (annotate c comps (outPathOf c) = .ok () → copyFn c l = .ok () →
          (c, Except.ok (outPathOf c)) ∈ rl.1 ∧ (c, l) ∈ rl.2)) := by
  constructor
  · intro c l e hmem hcmp
    obtain ⟨e', he'⟩ := generate_comparisons_error cmp files c l e hmem hcmp
    refine ⟨e', ?_⟩
    unfold FileManager.update
    rw [he']
  · intro rl hupd hnd c l comps hmem hcmp hany
    unfold FileManager.update at hupd
    cases hgen : generate_comparisons cmp files with
    | error e =>
      rw [hgen] at hupd
      exact Except.noConfusion hupd
    | ok ts =>
      rw [hgen] at hupd
      injection hupd with hrl
      subst hrl
      have hts := generate_comparisons_mem_fwd cmp files ts hgen c l comps hmem hcmp hany
      constructor
      · intro e hann
        exact ucp_mem_err copyFn files _ c _
          (updated_mem_err annotate outPathOf ts c comps e hts hann)
      · intro hann hcp
        have hlk : List.lookup c files = some l := lookup_of_mem_nodup files c l hmem hnd
        have hcp' : copyFn c ((List.lookup c files).getD "") = .ok () := by
          rw [hlk]
          exact hcp
        have h2 := ucp_mem_ok copyFn files _ c (outPathOf c)
          (updated_mem_ok annotate outPathOf ts c comps hts hann) hcp'
        refine ⟨h2.1, ?_⟩
        have h3 := h2.2
        rw [hlk] at h3
        simpa using h3

/-- Witness for C3 (amended): candidate "a" fails annotation and is recorded
as failed, candidate "b" succeeds and has its baseline promoted, in the same
cycle. -/
theorem claim3_witness :
    (FileManager.update exCmpDiff exAnnFailA exOut exCopyOk exFiles3 = .ok exRl3) ∧
    ("a", Except.error (FileManagerError.PDFEditorError PDFEditorError.UnableToSavePDF))
      ∈ exRl3.1 ∧
    (("b", Except.ok (exOut "b")) ∈ exRl3.1 ∧ ("b", "lb") ∈ exRl3.2) :=
  ⟨by decide,
   ((claim3_failure_isolation exCmpDiff exAnnFailA exOut exCopyOk exFiles3).2 exRl3
     (by decide) (by decide) "a" "la" exCompsDiff (by decide) (by decide) (by decide)).1
     PDFEditorError.UnableToSavePDF (by decide),
   ((claim3_failure_isolation exCmpDiff exAnnFailA exOut exCopyOk exFiles3).2 exRl3
     (by decide) (by decide) "b" "lb" exCompsDiff (by decide) (by decide) (by decide)).2
     (by decide) (by decide)⟩

lemma exceptIsOk_map_false {α β : Type} (r : Except FileManagerError α) (f : α → β)
    (h : exceptIsOk r = false) : exceptIsOk (Except.map f r) = false := by
  cases r with
  | ok v => exact absurd h (by simp [exceptIsOk])
  | error e => rfl

lemma scanEntries_eq_spec_fuel (lastRoot : FsNode) :
    ∀ (N : Nat) (entries : List (String × FsNode)), sizeOf entries ≤ N →
    ∀ curPath lastPath,
    scanEntries (fun _ => false) lastRoot entries curPath lastPath =
      .ok (scanSpec lastRoot entries curPath lastPath) := by
  intro N
  induction N with
  | zero =>
    intro entries h
    cases entries with
    | nil => intro cp lp; simp [scanEntries, scanSpec]
    | cons e rest =>
      exfalso
      simp [List.cons.sizeOf_spec] at h
  | succ N ih =>
    intro entries h cp lp
    cases entries with
    | nil => simp [scanEntries, scanSpec]
    | cons e rest =>
      obtain ⟨name, node⟩ := e
      have hrest : sizeOf rest ≤ N := by
        simp [List.cons.sizeOf_spec] at h
        omega
      have hrec := ih rest hrest cp lp
      cases node with
      | file m =>
        cases hlp : lookupPath (lp ++ [name]) lastRoot with
        | none => simp [scanEntries, scanSpec, metadataM, hlp, hrec, Except.map]
        | some nd =>
          cases nd with
          | file lastM =>
            by_cases hlt : lastM < m
            · simp [scanEntries, scanSpec, metadataM, hlp, hrec, hlt, Except.map]
            · simp [scanEntries, scanSpec, metadataM, hlp, hrec, hlt, Except.map]
          | dir es2 => simp [scanEntries, scanSpec, metadataM, hlp, hrec, Except.map]
      | dir es =>
        have hes : sizeOf es ≤ N := by
          simp [List.cons.sizeOf_spec, Prod.mk.sizeOf_spec, FsNode.dir.sizeOf_spec] at h
          omega
        have hsub := ih es hes (cp ++ [name]) (lp ++ [name])
        cases hlp : lookupPath (lp ++ [name]) lastRoot with
        | none => simp [scanEntries, scanSpec, metadataM, hlp, hrec, hsub, Except.map]
        | some nd => simp [scanEntries, scanSpec, metadataM, hlp, hrec, hsub, Except.map]

lemma scanEntries_fault_fuel (fault : List String → Bool) (lastRoot : FsNode) :
    ∀ (N : Nat) (entries : List (String × FsNode)), sizeOf entries ≤ N →
    ∀ curPath lastPath,
    (∃ p ∈ entries, fault (lastPath ++ [p.1]) = true) →
    exceptIsOk (scanEntries fault lastRoot entries curPath lastPath) = false := by
  intro N
  induction N with
  | zero =>
    intro entries h
    cases entries with
    | nil =>
      intro cp lp hex
      simp at hex
    | cons e rest =>
      exfalso
      simp [List.cons.sizeOf_spec] at h
  | succ N ih =>
    intro entries h cp lp hex
    cases entries with
    | nil => simp at hex
    | cons e rest =>
      obtain ⟨name, node⟩ := e
      obtain ⟨p, hp, hf⟩ := hex
      have hrest : sizeOf rest ≤ N := by
        simp [List.cons.sizeOf_spec] at h
        omega
      cases List.mem_cons.mp hp with
      | inl hhd =>
        subst hhd
        cases node with
        | file m => simp [scanEntries, metadataM, hf, exceptIsOk]
        | dir es => simp [scanEntries, metadataM, hf, exceptIsOk]
      | inr htl =>
        have hihrest := ih rest hrest cp lp ⟨p, htl, hf⟩
        cases node with
        | file m =>
          cases hmd : metadataM fault lastRoot (lp ++ [name]) with
          | error me =>
            cases me with
            | notFound =>
              simp [scanEntries, hmd]
              exact exceptIsOk_map_false _ _ hihrest
            | other => simp [scanEntries, hmd, exceptIsOk]
          | ok nd =>
            cases nd with
            | file lastM =>
              by_cases hlt : lastM < m
              · simp [scanEntries, hmd, hlt]
                exact exceptIsOk_map_false _ _ hihrest
              · simp [scanEntries, hmd, hlt]
                exact hihrest
            | dir es2 =>
              simp [scanEntries, hmd]
              exact exceptIsOk_map_false _ _ hihrest
        | dir es =>
          cases hmd : metadataM fault lastRoot (lp ++ [name]) with
          | error me =>
            cases me with
            | notFound =>
              simp [scanEntries, hmd]
              cases hse : scanEntries fault lastRoot es (cp ++ [name]) (lp ++ [name]) with
              | error e2 => simp [exceptIsOk]
              | ok sub => exact exceptIsOk_map_false _ _ hihrest
            | other => simp [scanEntries, hmd, exceptIsOk]
          | ok nd =>
            simp [scanEntries, hmd]
            cases hse : scanEntries fault lastRoot es (cp ++ [name]) (lp ++ [name]) with
            | error e2 => simp [exceptIsOk]
            | ok sub => exact exceptIsOk_map_false _ _ hihrest

/-- C8: on a filesystem without spurious I/O faults, find_updated_files
emits exactly the candidates described by the spec scan (file with strictly
newer timestamp than a baseline file, baseline absent, or baseline a
directory; recursing into directories, also when the baseline directory is
absent; NotFound is never an error), and a non-NotFound metadata failure on
any examined baseline path aborts the whole scan with an error. -/
theorem claim8_directory_scan (lastRoot : FsNode) (entries : List (String × FsNode))
    (curPath lastPath : List String) (fault : List String → Bool) :
    find_updated_files (fun _ => false) lastRoot (.dir entries) curPath lastPath =
      .ok (scanSpec lastRoot entries curPath lastPath) ∧
    ((∃ p ∈ entries, fault (lastPath ++ [p.1]) = true) →
      exceptIsOk (find_updated_files fault lastRoot (.dir entries) curPath lastPath) = false) := by
  constructor
  · exact scanEntries_eq_spec_fuel lastRoot (sizeOf entries) entries (le_refl _) curPath lastPath
  · intro hex
    exact scanEntries_fault_fuel fault lastRoot (sizeOf entries) entries (le_refl _)
      curPath lastPath hex

/-- Witness for C8 on a concrete tree: newer file, stale file, new files
under a recursed directory, file shadowed by a baseline directory; and a
fault on one baseline path aborting the scan. -/
theorem claim8_witness :
    (find_updated_files (fun _ => false) exLastTree (.dir exCurEntries) ["c"] ["l"] =
      .ok (scanSpec exLastTree exCurEntries ["c"] ["l"])) ∧
    (∃ p ∈ exCurEntries, exFault (["l"] ++ [p.1]) = true) ∧
    exceptIsOk (find_updated_files exFault exLastTree (.dir exCurEntries) ["c"] ["l"]) = false := by
  have hex : ∃ p ∈ exCurEntries, exFault (["l"] ++ [p.1]) = true :=
    ⟨("x", .file 9), by simp [exCurEntries], by decide⟩
  exact ⟨(claim8_directory_scan exLastTree exCurEntries ["c"] ["l"] exFault).1, hex,
    (claim8_directory_scan exLastTree exCurEntries ["c"] ["l"] exFault).2 hex⟩
